import Mathlib

/-!
# A verification development for the slab allocator (src/backend/utils/mmgr/slab.c)

This file gives a shallow embedding of the slab memory-context allocator and
proves the specification's testable properties about it.

Modelling conventions:
* A block is identified by a natural-number id (standing for its address); a
  chunk pointer is the pair `(block id, chunk index)`, standing for the address
  `block_base + sizeof(SlabBlock) + idx * fullChunkSize`.
* The per-block in-place free list (an `int32` stored in each free chunk's
  payload) is modelled by `SlabBlock.links`, the list of the payload words of
  all chunks of the block; live chunks keep their stale value, as in C.
* The `MemoryChunk` header written by `MemoryChunkSetHdrMask` is modelled by
  `SlabBlock.hdrBlock`, the per-chunk stored block reference (`none` before the
  first allocation of that chunk, exactly as the header is uninitialized then).
* The context-level doubly-linked freelists (`dlist_head freelist[]`) are
  modelled as `SlabContext.freelist : List (List Nat)`, bucket `k` being the
  list of block ids linked there, head first.  `dlist_push_head` is `cons`;
  `dlist_delete`, which unlinks a node from whatever list holds it, removes the
  id from every bucket.
* The system allocator (`malloc`) is an oracle: `SlabAlloc` takes a `canMalloc`
  flag deciding whether the block-level `malloc` succeeds.
* `elog(ERROR, ...)` raises before returning; the model returns a
  `fatal` result carrying the state at raise time.  Debug-only `Assert`s that
  guard against impossible states are modelled as an `assertionFailure` result.
-/

/-- `sizeof(MemoryChunk)`: the chunk header size (maxaligned, 8 bytes). -/
def chunkHdrSize : Nat := 8

/-- `MAXALIGN(n)`: round `n` up to the platform maximum alignment (8). -/
def maxAlign (n : Nat) : Nat := 8 * ((n + 7) / 8)

/-- `sizeof(SlabBlock)`: dlist node (16) + nfree (4) + firstFreeChunk (4) +
slab back-pointer (8). -/
def slabBlockHdrSize : Nat := 32

/-- The structure of a single block in the SLAB allocator (`SlabBlock`).
`links` models the `int32` word stored in every chunk's payload (the in-place
free list); `hdrBlock` models the block reference packed into each chunk's
`MemoryChunk` header by `MemoryChunkSetHdrMask` (`none` = never written). -/
structure SlabBlock where
  nfree : Nat
  firstFreeChunk : Nat
  slab : Nat
  links : List Nat
  hdrBlock : List (Option Nat)
deriving Repr, DecidableEq

/-- The slab context (`SlabContext`), including the standard memory-context
field `mem_allocated` (here `memAllocated`).  `blocks` maps block ids to block
contents; `nextBlockId` is the id the next `malloc` of a block would return. -/
structure SlabContext where
  ctxId : Nat
  chunkSize : Nat
  fullChunkSize : Nat
  blockSize : Nat
  chunksPerBlock : Nat
  minFreeChunks : Nat
  nblocks : Nat
  memAllocated : Nat
  freelist : List (List Nat)
  blocks : List (Nat × SlabBlock)
  nextBlockId : Nat
deriving Repr, DecidableEq

/-- Errors raised through `elog(ERROR, ...)` / `ereport(ERROR, ...)`. -/
inductive SlabError where
  | blockSizeTooSmall
  | unexpectedAllocChunkSize
  | reallocUnsupported
  | assertionFailure
deriving Repr, DecidableEq

/-- Bucket `k` of the context freelist (`slab->freelist[k]`). -/
def bucketGet (fl : List (List Nat)) (k : Nat) : List Nat := fl.getD k []

/-- `dlist_push_head(&slab->freelist[k], &block->node)`. -/
def pushBucket (fl : List (List Nat)) (k : Nat) (bid : Nat) : List (List Nat) :=
  fl.set k (bid :: bucketGet fl k)

/-- `dlist_delete(&block->node)`: unlink the block from whatever freelist
currently holds it. -/
def deleteBid (fl : List (List Nat)) (bid : Nat) : List (List Nat) :=
  fl.map (fun l => l.filter (fun b => b ≠ bid))

/-- Look a block up by id. -/
def lookupBlock (bs : List (Nat × SlabBlock)) (bid : Nat) : Option SlabBlock :=
  (bs.find? (fun bb => bb.1 = bid)).map (fun bb => bb.2)

/-- Replace the contents of block `bid`. -/
def updateBlock (bs : List (Nat × SlabBlock)) (bid : Nat) (blk : SlabBlock) :
    List (Nat × SlabBlock) :=
  bs.map (fun bb => if bb.1 = bid then (bid, blk) else bb)

/-- `free(block)`: the block disappears from the context's ownership. -/
def removeBlock (bs : List (Nat × SlabBlock)) (bid : Nat) : List (Nat × SlabBlock) :=
  bs.filter (fun bb => bb.1 ≠ bid)

/-- Walk the in-place free list: follow `links` from `idx` collecting the
visited in-range indices, succeeding (with the visited list) exactly when the
sentinel `cPB` is reached within `fuel` steps. -/
def freeWalk (links : List Nat) (cPB : Nat) : Nat → Nat → Option (List Nat)
  | _, 0 => none
  | idx, fuel + 1 =>
    if idx = cPB then some []
    else if idx < cPB then
      (freeWalk links cPB (links.getD idx 0) fuel).map (fun l => idx :: l)
    else none

/-- The set (list) of free chunk indices of a block, read off the in-place
free list.  Meaningful under the free-list wellformedness invariant. -/
def freeIdxs (cPB : Nat) (blk : SlabBlock) : List Nat :=
  (freeWalk blk.links cPB blk.firstFreeChunk (cPB + 1)).getD []

/-- A chunk pointer is live when its block is owned by the context and its
index is in range and not on the block's free list. -/
def isLiveB (s : SlabContext) (p : Nat × Nat) : Bool :=
  match lookupBlock s.blocks p.1 with
  | none => false
  | some blk =>
    decide (p.2 < s.chunksPerBlock) && !((freeIdxs s.chunksPerBlock blk).contains p.2)

/-- Propositional form of liveness of a chunk pointer. -/
def IsLive (s : SlabContext) (p : Nat × Nat) : Prop := isLiveB s p = true

instance (s : SlabContext) (p : Nat × Nat) : Decidable (IsLive s p) := by
  unfold IsLive; exact inferInstance

/-- `SlabContextCreate`: compute the geometry and build the empty context.
`chunkSize` is first raised to `sizeof(int) = 4` so the freelist link fits. -/
def SlabContextCreate (ctxId blockSize chunkSize : Nat) :
    Except SlabError SlabContext :=
  let chunkSize1 := if chunkSize < 4 then 4 else chunkSize
  let fullChunkSize := chunkHdrSize + maxAlign chunkSize1
  if blockSize < fullChunkSize + slabBlockHdrSize then
    .error .blockSizeTooSmall
  else
    let cPB := (blockSize - slabBlockHdrSize) / fullChunkSize
    .ok { ctxId := ctxId
          chunkSize := chunkSize1
          fullChunkSize := fullChunkSize
          blockSize := blockSize
          chunksPerBlock := cPB
          minFreeChunks := 0
          nblocks := 0
          memAllocated := 0
          freelist := List.replicate (cPB + 1) []
          blocks := []
          nextBlockId := 0 }

/-- The in-place free list of a freshly malloc'ed block: chunk `i` holds
`i + 1` (`SlabAlloc`, the loop threading the chunks). -/
def freshLinks (cPB : Nat) : List Nat := (List.range cPB).map (fun i => i + 1)

/-- The block built in `SlabAlloc`'s new-block path. -/
def newBlock (s : SlabContext) : SlabBlock :=
  { nfree := s.chunksPerBlock
    firstFreeChunk := 0
    slab := s.ctxId
    links := freshLinks s.chunksPerBlock
    hdrBlock := List.replicate s.chunksPerBlock none }

/-- `SlabAlloc`'s new-block path: malloc a block, thread its free list, link
it into the last freelist bucket, update the counters. -/
def addNewBlock (s : SlabContext) : SlabContext :=
  { s with blocks := (s.nextBlockId, newBlock s) :: s.blocks
           freelist := pushBucket s.freelist s.chunksPerBlock s.nextBlockId
           minFreeChunks := s.chunksPerBlock
           nblocks := s.nblocks + 1
           memAllocated := s.memAllocated + s.blockSize
           nextBlockId := s.nextBlockId + 1 }

/-- The rescan of the freelists at the end of `SlabAlloc`: when
`minFreeChunks` dropped to 0, walk buckets `1 .. chunksPerBlock` and stop at
the first non-empty one. -/
def rescanMin (s : SlabContext) : SlabContext :=
  if s.minFreeChunks = 0 then
    match (List.range' 1 s.chunksPerBlock).find?
        (fun k => !(bucketGet s.freelist k).isEmpty) with
    | some k => { s with minFreeChunks := k }
    | none => s
  else s

/-- The final guard of `SlabAlloc`: coerce `minFreeChunks == chunksPerBlock`
back to 0. -/
def coerceMin (s : SlabContext) : SlabContext :=
  if s.minFreeChunks = s.chunksPerBlock then { s with minFreeChunks := 0 } else s

/-- The tail of `SlabAlloc` after the source block `bid`/`blk` has been picked
from `freelist[minFreeChunks]`: pop the first free chunk, move the block to
its new bucket, fix up `minFreeChunks`, write the chunk header. -/
def allocFinish (s1 : SlabContext) (bid : Nat) (blk : SlabBlock) :
    (Nat × Nat) × SlabContext :=
  let idx := blk.firstFreeChunk
  let nfree1 := blk.nfree - 1
  let blk1 : SlabBlock :=
    { blk with nfree := nfree1
               firstFreeChunk := blk.links.getD idx 0
               hdrBlock := blk.hdrBlock.set idx (some bid) }
  let s2 : SlabContext :=
    { s1 with blocks := updateBlock s1.blocks bid blk1
              minFreeChunks := nfree1
              freelist := pushBucket (deleteBid s1.freelist bid) nfree1 bid }
  ((bid, idx), coerceMin (rescanMin s2))

/-- Result of `SlabAlloc`: a fatal `elog(ERROR)` (carrying the state at raise
time), a NULL return on block `malloc` failure (state unchanged), or the
allocated chunk pointer with the new state. -/
inductive AllocResult where
  | fatal (e : SlabError) (s : SlabContext)
  | null (s : SlabContext)
  | ok (p : Nat × Nat) (s : SlabContext)
deriving Repr, DecidableEq

/-- The core of `SlabAlloc` once a source block is guaranteed to exist:
grab the head block of `freelist[minFreeChunks]` and serve a chunk from it.
The `Assert`s of the C code (non-empty bucket, valid block, in-range chunk
index) are modelled as an `assertionFailure` result. -/
def SlabAllocCore (s1 : SlabContext) : AllocResult :=
  match (bucketGet s1.freelist s1.minFreeChunks).head? with
  | none => .fatal .assertionFailure s1
  | some bid =>
    match lookupBlock s1.blocks bid with
    | none => .fatal .assertionFailure s1
    | some blk =>
      if blk.firstFreeChunk < s1.chunksPerBlock then
        let r := allocFinish s1 bid blk
        .ok r.1 r.2
      else .fatal .assertionFailure s1

/-- `SlabAlloc(context, size)` with the `malloc` oracle `canMalloc`: check
the request size, obtain a new block when no free chunk exists (returning
NULL if `malloc` fails), then serve a chunk. -/
def SlabAlloc (s : SlabContext) (size : Nat) (canMalloc : Bool) : AllocResult :=
  if size ≠ s.chunkSize then .fatal .unexpectedAllocChunkSize s
  else if s.minFreeChunks = 0 ∧ canMalloc = false then .null s
  else SlabAllocCore (if s.minFreeChunks = 0 then addNewBlock s else s)

/-- The updated block inside `SlabFree`: the chunk pushed back onto the
in-place free list. -/
def freeBlk1 (p : Nat × Nat) (blk : SlabBlock) : SlabBlock :=
  { blk with links := blk.links.set p.2 blk.firstFreeChunk
             firstFreeChunk := p.2
             nfree := blk.nfree + 1 }

/-- The context state inside `SlabFree` after the chunk has been pushed and
the block unlinked, before the `minFreeChunks` fix-up and the
reclaim-or-rebucket step. -/
def freeState1 (s : SlabContext) (p : Nat × Nat) (blk : SlabBlock) : SlabContext :=
  { s with blocks := updateBlock s.blocks p.1 (freeBlk1 p blk)
           freelist := deleteBid s.freelist p.1 }

/-- The `minFreeChunks` fix-up of `SlabFree` (slab.c lines 493-504): if the
freed-from block was at the cached minimum and its old bucket is now empty,
either zero the cursor (the block is about to be reclaimed) or bump it. -/
def freeState2 (s : SlabContext) (p : Nat × Nat) (blk : SlabBlock) :
    SlabContext :=
  if s.minFreeChunks = (freeBlk1 p blk).nfree - 1 then
    if bucketGet (freeState1 s p blk).freelist s.minFreeChunks = [] then
      if (freeBlk1 p blk).nfree = (freeState1 s p blk).chunksPerBlock then
        { freeState1 s p blk with minFreeChunks := 0 }
      else { freeState1 s p blk with minFreeChunks := s.minFreeChunks + 1 }
    else freeState1 s p blk
  else freeState1 s p blk

/-- The state updates of `SlabFree` once the owning block `blk` of `p` has
been recovered: push the chunk onto the block's in-place free list, unlink
the block, fix up `minFreeChunks`, and either reclaim the now-empty block or
push it onto the bucket matching its new free count. -/
def SlabFreeBody (s : SlabContext) (p : Nat × Nat) (blk : SlabBlock) :
    SlabContext :=
  if (freeBlk1 p blk).nfree = (freeState2 s p blk).chunksPerBlock then
    { freeState2 s p blk with
        blocks := removeBlock (freeState2 s p blk).blocks p.1
        nblocks := (freeState2 s p blk).nblocks - 1
        memAllocated := (freeState2 s p blk).memAllocated -
          (freeState2 s p blk).blockSize }
  else
    { freeState2 s p blk with
        freelist := pushBucket (freeState2 s p blk).freelist
          (freeBlk1 p blk).nfree p.1 }

/-- `SlabFree(pointer)`.  The owning block is recovered through the stored
chunk header; `none` marks the undefined behaviour of freeing a pointer whose
header was never written (such a pointer was never returned by `SlabAlloc`). -/
def SlabFree (s : SlabContext) (p : Nat × Nat) : Option SlabContext :=
  match lookupBlock s.blocks p.1 with
  | none => none
  | some blk =>
    match blk.hdrBlock.getD p.2 none with
    | none => none
    | some bid1 =>
      if bid1 = p.1 then some (SlabFreeBody s p blk) else none

/-- One iteration of `SlabReset`'s loop body: unlink a block, `free` it,
and fix the counters. -/
def freeOneBlock (s : SlabContext) (bid : Nat) : SlabContext :=
  { s with freelist := deleteBid s.freelist bid
           blocks := removeBlock s.blocks bid
           nblocks := s.nblocks - 1
           memAllocated := s.memAllocated - s.blockSize }

/-- `SlabReset`: walk every freelist bucket freeing every block, then clear
`minFreeChunks`.  The context header itself is kept. -/
def SlabReset (s : SlabContext) : SlabContext :=
  let s1 := s.freelist.flatten.foldl freeOneBlock s
  { s1 with minFreeChunks := 0 }

/-- `SlabIsEmpty`. -/
def SlabIsEmpty (s : SlabContext) : Bool := s.nblocks = 0

/-- Result of `SlabRealloc`. -/
inductive ReallocResult where
  | ok (p : Nat × Nat)
  | fatal (e : SlabError)
deriving Repr, DecidableEq

/-- Recover `pointer -> MemoryChunk -> SlabBlock` by reading the stored chunk
header, as `PointerGetMemoryChunk` / `MemoryChunkGetBlock` do; `none` is the
undefined behaviour of a header that was never written. -/
def chunkGetBlock (s : SlabContext) (p : Nat × Nat) : Option SlabBlock :=
  match lookupBlock s.blocks p.1 with
  | none => none
  | some blk =>
    match blk.hdrBlock.getD p.2 none with
    | none => none
    | some bid1 => lookupBlock s.blocks bid1

/-- `SlabRealloc(pointer, size)`: same size passes the pointer through,
any other size raises; the context is returned unchanged either way. -/
def SlabRealloc (s : SlabContext) (p : Nat × Nat) (size : Nat) :
    Option (ReallocResult × SlabContext) :=
  match chunkGetBlock s p with
  | none => none
  | some _ =>
    if size = s.chunkSize then some (.ok p, s)
    else some (.fatal .reallocUnsupported, s)

/-- `SlabGetChunkContext(pointer)`: recover the owning context (its id)
through the chunk header and the block's `slab` back-pointer. -/
def SlabGetChunkContext (s : SlabContext) (p : Nat × Nat) : Option Nat :=
  match chunkGetBlock s p with
  | none => none
  | some blk => some blk.slab

/-- `SlabGetChunkSpace(pointer)`: the full cost of a chunk. -/
def SlabGetChunkSpace (s : SlabContext) (p : Nat × Nat) : Option Nat :=
  match chunkGetBlock s p with
  | none => none
  | some _ => some s.fullChunkSize

/-- Iterate `SlabAlloc` (with a working system allocator), collecting the
returned pointers; fails if any allocation does not succeed. -/
def allocStream (s : SlabContext) : Nat → Option (List (Nat × Nat) × SlabContext)
  | 0 => some ([], s)
  | n + 1 =>
    match SlabAlloc s s.chunkSize true with
    | .ok p t => (allocStream t n).map (fun r => (p :: r.1, r.2))
    | _ => none

/-- The state after a successful `SlabAlloc` (identity otherwise); used to
build concrete reachable states. -/
def allocOkState (s : SlabContext) (sz : Nat) : SlabContext :=
  match SlabAlloc s sz true with
  | .ok _ t => t
  | _ => s

/-- The state after a successful `SlabFree` (identity otherwise); used to
build concrete reachable states. -/
def freeOkState (s : SlabContext) (p : Nat × Nat) : SlabContext :=
  (SlabFree s p).getD s

/-- The global invariant tying the context, the free-bucket index and the
per-block in-place free lists together.  `Reachable` states satisfy it. -/
structure SlabInv (s : SlabContext) : Prop where
  flLen : s.freelist.length = s.chunksPerBlock + 1
  cPBpos : 0 < s.chunksPerBlock
  bidsNodup : s.freelist.flatten.Nodup
  keysPerm : List.Perm (s.blocks.map Prod.fst) s.freelist.flatten
  bidsLt : ∀ bid ∈ s.freelist.flatten, bid < s.nextBlockId
  bucketNfree : ∀ k bid, bid ∈ bucketGet s.freelist k →
    ∃ blk, lookupBlock s.blocks bid = some blk ∧ blk.nfree = k
  blockWF : ∀ bid blk, lookupBlock s.blocks bid = some blk →
    blk.links.length = s.chunksPerBlock ∧
    blk.hdrBlock.length = s.chunksPerBlock ∧
    ∃ l, freeWalk blk.links s.chunksPerBlock blk.firstFreeChunk
        (s.chunksPerBlock + 1) = some l ∧ l.length = blk.nfree
  notFull : ∀ bid blk, lookupBlock s.blocks bid = some blk →
    blk.nfree < s.chunksPerBlock
  slabPtr : ∀ bid blk, lookupBlock s.blocks bid = some blk → blk.slab = s.ctxId
  liveHdr : ∀ bid blk, lookupBlock s.blocks bid = some blk →
    ∀ idx, idx < s.chunksPerBlock → idx ∉ freeIdxs s.chunksPerBlock blk →
      blk.hdrBlock.getD idx none = some bid
  minLt : s.minFreeChunks < s.chunksPerBlock
  minBucket : s.minFreeChunks = 0 ∨ bucketGet s.freelist s.minFreeChunks ≠ []
  nblocksEq : s.nblocks = s.freelist.flatten.length
  memEq : s.memAllocated = s.nblocks * s.blockSize
  fullEq : s.fullChunkSize = chunkHdrSize + maxAlign s.chunkSize

/-- `SlabInv` without the two `minFreeChunks` facts; used while the cursor is
being fixed up at the end of an operation. -/
structure InvNoMin (s : SlabContext) : Prop where
  flLen : s.freelist.length = s.chunksPerBlock + 1
  cPBpos : 0 < s.chunksPerBlock
  bidsNodup : s.freelist.flatten.Nodup
  keysPerm : List.Perm (s.blocks.map Prod.fst) s.freelist.flatten
  bidsLt : ∀ bid ∈ s.freelist.flatten, bid < s.nextBlockId
  bucketNfree : ∀ k bid, bid ∈ bucketGet s.freelist k →
    ∃ blk, lookupBlock s.blocks bid = some blk ∧ blk.nfree = k
  blockWF : ∀ bid blk, lookupBlock s.blocks bid = some blk →
    blk.links.length = s.chunksPerBlock ∧
    blk.hdrBlock.length = s.chunksPerBlock ∧
    ∃ l, freeWalk blk.links s.chunksPerBlock blk.firstFreeChunk
        (s.chunksPerBlock + 1) = some l ∧ l.length = blk.nfree
  notFull : ∀ bid blk, lookupBlock s.blocks bid = some blk →
    blk.nfree < s.chunksPerBlock
  slabPtr : ∀ bid blk, lookupBlock s.blocks bid = some blk → blk.slab = s.ctxId
  liveHdr : ∀ bid blk, lookupBlock s.blocks bid = some blk →
    ∀ idx, idx < s.chunksPerBlock → idx ∉ freeIdxs s.chunksPerBlock blk →
      blk.hdrBlock.getD idx none = some bid
  nblocksEq : s.nblocks = s.freelist.flatten.length
  memEq : s.memAllocated = s.nblocks * s.blockSize
  fullEq : s.fullChunkSize = chunkHdrSize + maxAlign s.chunkSize

/-- The facts holding midway through `SlabAlloc`, after the source block
`bid` (with contents `blk`) has been picked (either the pre-existing head of
`freelist[minFreeChunks]` or the freshly malloc'ed block). -/
structure AllocMid (s1 : SlabContext) (bid : Nat) (blk : SlabBlock) : Prop where
  flLen : s1.freelist.length = s1.chunksPerBlock + 1
  cPBpos : 0 < s1.chunksPerBlock
  bidsNodup : s1.freelist.flatten.Nodup
  keysPerm : List.Perm (s1.blocks.map Prod.fst) s1.freelist.flatten
  bidsLt : ∀ b2 ∈ s1.freelist.flatten, b2 < s1.nextBlockId
  bucketNfree : ∀ k b2, b2 ∈ bucketGet s1.freelist k →
    ∃ blk2, lookupBlock s1.blocks b2 = some blk2 ∧ blk2.nfree = k
  blockWF : ∀ b2 blk2, lookupBlock s1.blocks b2 = some blk2 →
    blk2.links.length = s1.chunksPerBlock ∧
    blk2.hdrBlock.length = s1.chunksPerBlock ∧
    ∃ l, freeWalk blk2.links s1.chunksPerBlock blk2.firstFreeChunk
        (s1.chunksPerBlock + 1) = some l ∧ l.length = blk2.nfree
  slabPtr : ∀ b2 blk2, lookupBlock s1.blocks b2 = some blk2 →
    blk2.slab = s1.ctxId
  liveHdr : ∀ b2 blk2, lookupBlock s1.blocks b2 = some blk2 →
    ∀ idx, idx < s1.chunksPerBlock → idx ∉ freeIdxs s1.chunksPerBlock blk2 →
      blk2.hdrBlock.getD idx none = some b2
  nblocksEq : s1.nblocks = s1.freelist.flatten.length
  memEq : s1.memAllocated = s1.nblocks * s1.blockSize
  fullEq : s1.fullChunkSize = chunkHdrSize + maxAlign s1.chunkSize
  headEq : (bucketGet s1.freelist s1.minFreeChunks).head? = some bid
  lookupEq : lookupBlock s1.blocks bid = some blk
  nfreeEq : blk.nfree = s1.minFreeChunks
  minPos : 1 ≤ s1.minFreeChunks
  minLe : s1.minFreeChunks ≤ s1.chunksPerBlock
  othersNotFull : ∀ b2 blk2, b2 ≠ bid → lookupBlock s1.blocks b2 = some blk2 →
    blk2.nfree < s1.chunksPerBlock
  topOnly : ∀ b2 ∈ bucketGet s1.freelist s1.chunksPerBlock, b2 = bid

/-- The facts holding after `k` chunks of a fresh block `bid` (obtained with
all links still threading `i ↦ i + 1`) have been handed out; they drive the
next allocation to return `(bid, k)`. -/
structure MidRun (c bid k : Nat) (t : SlabContext) : Prop where
  cEq : t.chunksPerBlock = c
  flLen : t.freelist.length = c + 1
  minEq : t.minFreeChunks = c - k
  klt : k < c
  headEq : (bucketGet t.freelist (c - k)).head? = some bid
  lookupEq : ∃ blk, lookupBlock t.blocks bid = some blk ∧
    blk.firstFreeChunk = k ∧ blk.nfree = c - k ∧ blk.links = freshLinks c

/-- A concrete slab used by the witnesses below: `blockSize = 80`,
`chunkSize = 16`, hence `fullChunkSize = 24` and `chunksPerBlock = 2`. -/
def w0 : SlabContext :=
  match SlabContextCreate 0 80 16 with
  | .ok s => s
  | .error _ => ⟨0, 0, 0, 0, 0, 0, 0, 0, [], [], 0⟩

/-- `w0` after one allocation: block 0 holds one live chunk. -/
def w1 : SlabContext := allocOkState w0 16

/-- `w0` after two allocations: block 0 is full. -/
def w2 : SlabContext := allocOkState w1 16

/-- `w0` after three allocations: block 0 full, block 1 holds one chunk. -/
def w3 : SlabContext := allocOkState w2 16

/-- `w0` after four allocations: both blocks full (both in bucket 0). -/
def w4 : SlabContext := allocOkState w3 16

/-- `w4` after freeing chunk `(0, 0)`: the state exhibiting the stale
`minFreeChunks` (it stays 0 although bucket 1 now holds block 0). -/
def c1s : SlabContext := freeOkState w4 (0, 0)

/-- `w2` after freeing chunk `(0, 0)`: block 0 back to one free chunk. -/
def y3 : SlabContext := freeOkState w2 (0, 0)

/-- `y3` after freeing chunk `(0, 1)`: the block becomes empty and is
reclaimed eagerly. -/
def y4 : SlabContext := freeOkState y3 (0, 1)

/-- The states reachable through the public protocol: a freshly created
context, successful allocations, frees of live pointers, and resets. -/
inductive Reachable : SlabContext → Prop where
  | create (cid bs cs : Nat) (s : SlabContext)
      (h : SlabContextCreate cid bs cs = .ok s) : Reachable s
  | alloc (s : SlabContext) (p : Nat × Nat) (s' : SlabContext) (sz : Nat)
      (cm : Bool) (h : Reachable s) (hs : SlabAlloc s sz cm = .ok p s') :
      Reachable s'
  | free (s : SlabContext) (p : Nat × Nat) (s' : SlabContext)
      (h : Reachable s) (hl : IsLive s p) (hs : SlabFree s p = some s') :
      Reachable s'
  | reset (s : SlabContext) (h : Reachable s) : Reachable (SlabReset s)

/-- The updated source block inside `SlabAlloc`: one chunk popped, its
header written. -/
def allocBlk1 (bid : Nat) (blk : SlabBlock) : SlabBlock :=
  { blk with nfree := blk.nfree - 1
             firstFreeChunk := blk.links.getD blk.firstFreeChunk 0
             hdrBlock := blk.hdrBlock.set blk.firstFreeChunk (some bid) }

/-- The context state inside `SlabAlloc` after the block has been rebucketed,
before the `minFreeChunks` fix-ups. -/
def allocState2 (s1 : SlabContext) (bid : Nat) (blk : SlabBlock) : SlabContext :=
  { s1 with blocks := updateBlock s1.blocks bid (allocBlk1 bid blk)
            minFreeChunks := blk.nfree - 1
            freelist := pushBucket (deleteBid s1.freelist bid) (blk.nfree - 1) bid }

/-! ## List helper lemmas -/

theorem getD_set_self {α : Type} (l : List α) (i : Nat) (v d : α)
    (h : i < l.length) : (l.set i v).getD i d = v := by
  induction l generalizing i with
  | nil => simp at h
  | cons a t ih =>
    cases i with
    | zero => rfl
    | succ j => exact ih j (by simpa using h)

theorem getD_set_ne {α : Type} (l : List α) (i j : Nat) (v d : α)
    (h : i ≠ j) : (l.set i v).getD j d = l.getD j d := by
  induction l generalizing i j with
  | nil => simp [List.set]
  | cons a t ih =>
    cases i with
    | zero =>
      cases j with
      | zero => exact absurd rfl h
      | succ j2 => rfl
    | succ i2 =>
      cases j with
      | zero => rfl
      | succ j2 => exact ih i2 j2 (fun e => h (by rw [e]))

theorem bucketGet_pushBucket_self (fl : List (List Nat)) (k bid : Nat)
    (h : k < fl.length) :
    bucketGet (pushBucket fl k bid) k = bid :: bucketGet fl k :=
  getD_set_self fl k _ [] h

theorem bucketGet_pushBucket_ne (fl : List (List Nat)) (k k2 bid : Nat)
    (h : k ≠ k2) :
    bucketGet (pushBucket fl k bid) k2 = bucketGet fl k2 :=
  getD_set_ne fl k k2 _ [] h

theorem bucketGet_deleteBid (fl : List (List Nat)) (k bid : Nat) :
    bucketGet (deleteBid fl bid) k =
      (bucketGet fl k).filter (fun b => b ≠ bid) := by
  induction fl generalizing k with
  | nil => rfl
  | cons l t ih =>
    cases k with
    | zero => rfl
    | succ j => exact ih j

theorem flatten_deleteBid (fl : List (List Nat)) (bid : Nat) :
    (deleteBid fl bid).flatten = fl.flatten.filter (fun b => b ≠ bid) := by
  induction fl with
  | nil => rfl
  | cons l t ih =>
    simp only [deleteBid, List.map_cons, List.flatten_cons, List.filter_append]
    simp only [deleteBid] at ih
    rw [ih]

theorem flatten_pushBucket_perm (fl : List (List Nat)) (k bid : Nat)
    (h : k < fl.length) :
    List.Perm (pushBucket fl k bid).flatten (bid :: fl.flatten) := by
  induction fl generalizing k with
  | nil => simp at h
  | cons l t ih =>
    cases k with
    | zero =>
      simp only [pushBucket, bucketGet, List.set, List.getD, List.flatten_cons]
      exact List.Perm.refl _
    | succ j =>
      have h1 := ih j (by simpa using h)
      simp only [pushBucket, bucketGet, List.set, List.flatten_cons] at *
      exact (h1.append_left l).trans List.perm_middle

theorem mem_bucket_of_mem_flatten (fl : List (List Nat)) (bid : Nat)
    (h : bid ∈ fl.flatten) : ∃ k, k < fl.length ∧ bid ∈ bucketGet fl k := by
  induction fl with
  | nil => simp at h
  | cons l t ih =>
    rw [List.flatten_cons, List.mem_append] at h
    rcases h with h | h
    · exact ⟨0, by simp, h⟩
    · obtain ⟨k, hk, hm⟩ := ih h
      exact ⟨k + 1, by simpa using hk, hm⟩

theorem mem_flatten_of_mem_bucket (fl : List (List Nat)) (k bid : Nat)
    (h : bid ∈ bucketGet fl k) : bid ∈ fl.flatten := by
  induction fl generalizing k with
  | nil => simp [bucketGet] at h
  | cons l t ih =>
    cases k with
    | zero => exact List.mem_append.mpr (.inl h)
    | succ j => exact List.mem_append.mpr (.inr (ih j h))

theorem filter_ne_self (l : List Nat) (bid : Nat) (h : bid ∉ l) :
    l.filter (fun b => b ≠ bid) = l := by
  induction l with
  | nil => rfl
  | cons a t ih =>
    have ha : a ≠ bid := fun e => h (e ▸ List.mem_cons_self a t)
    have ht : bid ∉ t := fun m => h (List.mem_cons_of_mem a m)
    have hpa : (fun b => decide (b ≠ bid)) a = true := by simp [ha]
    rw [List.filter_cons, if_pos hpa, ih ht]

theorem perm_cons_filter_ne (l : List Nat) (bid : Nat) (hn : l.Nodup)
    (hm : bid ∈ l) :
    List.Perm l (bid :: l.filter (fun b => b ≠ bid)) := by
  induction l with
  | nil => simp at hm
  | cons a t ih =>
    rcases List.mem_cons.mp hm with heq | hm2
    · subst heq
      have hnt : bid ∉ t := (List.nodup_cons.mp hn).1
      rw [List.filter_cons, if_neg (by simp), filter_ne_self t bid hnt]
    · have hn2 := (List.nodup_cons.mp hn).2
      have ha : a ≠ bid := by
        intro e
        exact (List.nodup_cons.mp hn).1 (by rw [e]; exact hm2)
      have hpa : (fun b => decide (b ≠ bid)) a = true := by simp [ha]
      rw [List.filter_cons, if_pos hpa]
      exact ((ih hn2 hm2).cons a).trans (List.Perm.swap bid a _)

theorem length_filter_ne (l : List Nat) (bid : Nat) (hn : l.Nodup)
    (hm : bid ∈ l) :
    (l.filter (fun b => b ≠ bid)).length + 1 = l.length := by
  have h := (perm_cons_filter_ne l bid hn hm).length_eq
  simpa [Nat.add_comm] using h.symm

/-! ## Association-list lemmas for the block table -/

theorem lookupBlock_cons_self (bid : Nat) (blk : SlabBlock)
    (bs : List (Nat × SlabBlock)) :
    lookupBlock ((bid, blk) :: bs) bid = some blk := by
  simp [lookupBlock, List.find?_cons]

theorem lookupBlock_cons_ne (b bid : Nat) (blk : SlabBlock)
    (bs : List (Nat × SlabBlock)) (h : b ≠ bid) :
    lookupBlock ((b, blk) :: bs) bid = lookupBlock bs bid := by
  simp [lookupBlock, List.find?_cons, h]

theorem lookupBlock_mem (bs : List (Nat × SlabBlock)) (bid : Nat)
    (blk : SlabBlock) (h : lookupBlock bs bid = some blk) :
    bid ∈ bs.map Prod.fst := by
  induction bs with
  | nil => simp [lookupBlock] at h
  | cons a t ih =>
    obtain ⟨k, v⟩ := a
    by_cases e : k = bid
    · simp only [List.map_cons]
      exact List.mem_cons.mpr (Or.inl e.symm)
    · rw [lookupBlock_cons_ne k bid v t e] at h
      exact List.mem_cons_of_mem _ (ih h)

theorem lookupBlock_isSome_of_mem (bs : List (Nat × SlabBlock)) (bid : Nat)
    (h : bid ∈ bs.map Prod.fst) : ∃ blk, lookupBlock bs bid = some blk := by
  induction bs with
  | nil => simp at h
  | cons a t ih =>
    obtain ⟨k, v⟩ := a
    by_cases e : k = bid
    · subst e
      exact ⟨v, lookupBlock_cons_self k v t⟩
    · simp only [List.map_cons] at h
      rcases List.mem_cons.mp h with h1 | h1
      · exact absurd h1.symm e
      · obtain ⟨blk, hb⟩ := ih h1
        exact ⟨blk, by rw [lookupBlock_cons_ne k bid v t e]; exact hb⟩

theorem lookupBlock_eq_none_of_not_mem (bs : List (Nat × SlabBlock)) (bid : Nat)
    (h : bid ∉ bs.map Prod.fst) : lookupBlock bs bid = none := by
  cases hl : lookupBlock bs bid with
  | none => rfl
  | some blk => exact absurd (lookupBlock_mem bs bid blk hl) h

theorem map_fst_updateBlock (bs : List (Nat × SlabBlock)) (bid : Nat)
    (blk : SlabBlock) :
    (updateBlock bs bid blk).map Prod.fst = bs.map Prod.fst := by
  induction bs with
  | nil => rfl
  | cons a t ih =>
    obtain ⟨k, v⟩ := a
    simp only [updateBlock] at ih ⊢
    simp only [List.map_cons]
    by_cases e : k = bid
    · simp [e, ih]
    · simp [e, ih]

theorem lookupBlock_updateBlock_self (bs : List (Nat × SlabBlock)) (bid : Nat)
    (blk blk0 : SlabBlock) (h : lookupBlock bs bid = some blk0) :
    lookupBlock (updateBlock bs bid blk) bid = some blk := by
  induction bs with
  | nil => simp [lookupBlock] at h
  | cons a t ih =>
    obtain ⟨k, v⟩ := a
    by_cases e : k = bid
    · have h1 : updateBlock ((k, v) :: t) bid blk
          = (bid, blk) :: updateBlock t bid blk := by
        simp [updateBlock, e]
      rw [h1]
      exact lookupBlock_cons_self bid blk _
    · have h1 : updateBlock ((k, v) :: t) bid blk
          = (k, v) :: updateBlock t bid blk := by
        simp [updateBlock, e]
      rw [lookupBlock_cons_ne k bid v t e] at h
      rw [h1, lookupBlock_cons_ne k bid v _ e]
      exact ih h

theorem lookupBlock_updateBlock_ne (bs : List (Nat × SlabBlock)) (bid b : Nat)
    (blk : SlabBlock) (h : b ≠ bid) :
    lookupBlock (updateBlock bs bid blk) b = lookupBlock bs b := by
  induction bs with
  | nil => rfl
  | cons a t ih =>
    obtain ⟨k, v⟩ := a
    by_cases e : k = bid
    · have h1 : updateBlock ((k, v) :: t) bid blk
          = (bid, blk) :: updateBlock t bid blk := by
        simp [updateBlock, e]
      rw [h1, lookupBlock_cons_ne bid b blk _ (fun x => h x.symm), ih]
      rw [lookupBlock_cons_ne k b v t (by rw [e]; exact fun x => h x.symm)]
    · have h1 : updateBlock ((k, v) :: t) bid blk
          = (k, v) :: updateBlock t bid blk := by
        simp [updateBlock, e]
      rw [h1]
      by_cases e2 : k = b
      · subst e2
        rw [lookupBlock_cons_self k v, lookupBlock_cons_self k v]
      · rw [lookupBlock_cons_ne k b v _ e2, lookupBlock_cons_ne k b v t e2, ih]

theorem lookupBlock_removeBlock_self (bs : List (Nat × SlabBlock)) (bid : Nat) :
    lookupBlock (removeBlock bs bid) bid = none := by
  induction bs with
  | nil => rfl
  | cons a t ih =>
    obtain ⟨k, v⟩ := a
    by_cases e : k = bid
    · have h1 : removeBlock ((k, v) :: t) bid = removeBlock t bid := by
        simp [removeBlock, List.filter_cons, e]
      rw [h1, ih]
    · have h1 : removeBlock ((k, v) :: t) bid
          = (k, v) :: removeBlock t bid := by
        simp [removeBlock, List.filter_cons, e]
      rw [h1, lookupBlock_cons_ne k bid v _ e, ih]

theorem lookupBlock_removeBlock_ne (bs : List (Nat × SlabBlock)) (bid b : Nat)
    (h : b ≠ bid) :
    lookupBlock (removeBlock bs bid) b = lookupBlock bs b := by
  induction bs with
  | nil => rfl
  | cons a t ih =>
    obtain ⟨k, v⟩ := a
    by_cases e : k = bid
    · have h1 : removeBlock ((k, v) :: t) bid = removeBlock t bid := by
        simp [removeBlock, List.filter_cons, e]
      rw [h1, ih, lookupBlock_cons_ne k b v t (by rw [e]; exact fun x => h x.symm)]
    · have h1 : removeBlock ((k, v) :: t) bid
          = (k, v) :: removeBlock t bid := by
        simp [removeBlock, List.filter_cons, e]
      rw [h1]
      by_cases e2 : k = b
      · subst e2
        rw [lookupBlock_cons_self k v, lookupBlock_cons_self k v]
      · rw [lookupBlock_cons_ne k b v _ e2, lookupBlock_cons_ne k b v t e2, ih]

theorem map_fst_removeBlock (bs : List (Nat × SlabBlock)) (bid : Nat) :
    (removeBlock bs bid).map Prod.fst =
      (bs.map Prod.fst).filter (fun b => b ≠ bid) := by
  induction bs with
  | nil => rfl
  | cons a t ih =>
    obtain ⟨k, v⟩ := a
    by_cases e : k = bid
    · have h1 : removeBlock ((k, v) :: t) bid = removeBlock t bid := by
        simp [removeBlock, List.filter_cons, e]
      rw [h1, ih]
      simp [List.filter_cons, e]
    · have h1 : removeBlock ((k, v) :: t) bid
          = (k, v) :: removeBlock t bid := by
        simp [removeBlock, List.filter_cons, e]
      rw [h1]
      simp only [List.map_cons]
      rw [ih]
      simp [List.filter_cons, e]

/-! ## Lemmas about the in-place free-list walk -/

theorem freeWalk_zero (L : List Nat) (c i : Nat) : freeWalk L c i 0 = none := rfl

theorem freeWalk_succ (L : List Nat) (c i g : Nat) :
    freeWalk L c i (g + 1) =
      if i = c then some []
      else if i < c then (freeWalk L c (L.getD i 0) g).map (fun l => i :: l)
      else none := rfl

theorem freeWalk_mono (L : List Nat) (c : Nat) :
    ∀ f i l, freeWalk L c i f = some l → freeWalk L c i (f + 1) = some l := by
  intro f
  induction f with
  | zero => intro i l h; rw [freeWalk_zero] at h; cases h
  | succ g ih =>
    intro i l h
    rw [freeWalk_succ] at h
    rw [freeWalk_succ]
    by_cases e : i = c
    · rw [if_pos e] at h ⊢; exact h
    · rw [if_neg e] at h ⊢
      by_cases e2 : i < c
      · rw [if_pos e2] at h ⊢
        cases hr : freeWalk L c (L.getD i 0) g with
        | none => rw [hr] at h; cases h
        | some l2 => rw [hr] at h; rw [ih _ _ hr]; exact h
      · rw [if_neg e2] at h; cases h

theorem freeWalk_le (L : List Nat) (c i : Nat) (l : List Nat) :
    ∀ f2 f, f ≤ f2 → freeWalk L c i f = some l → freeWalk L c i f2 = some l := by
  intro f2
  induction f2 with
  | zero => intro f hf h; cases Nat.le_zero.mp hf; exact h
  | succ g ih =>
    intro f hf h
    rcases Nat.lt_or_ge f (g + 1) with hlt | hge
    · exact freeWalk_mono L c g i l (ih f (Nat.lt_succ_iff.mp hlt) h)
    · have he : f = g + 1 := Nat.le_antisymm hf hge
      exact he ▸ h

theorem freeWalk_det (L : List Nat) (c i f f2 : Nat) (l l2 : List Nat)
    (h : freeWalk L c i f = some l) (h2 : freeWalk L c i f2 = some l2) :
    l = l2 := by
  rcases Nat.le_total f f2 with hle | hle
  · have h3 := freeWalk_le L c i l f2 f hle h
    rw [h3] at h2
    exact Option.some.inj h2
  · have h3 := freeWalk_le L c i l2 f f2 hle h2
    rw [h3] at h
    exact (Option.some.inj h).symm

theorem freeWalk_mem_lt (L : List Nat) (c : Nat) :
    ∀ f i l, freeWalk L c i f = some l → ∀ j ∈ l, j < c := by
  intro f
  induction f with
  | zero => intro i l h; cases h
  | succ g ih =>
    intro i l h
    rw [freeWalk_succ] at h
    by_cases e : i = c
    · rw [if_pos e] at h
      cases h
      intro j hj
      cases hj
    · rw [if_neg e] at h
      by_cases e2 : i < c
      · rw [if_pos e2] at h
        cases hr : freeWalk L c (L.getD i 0) g with
        | none => rw [hr] at h; cases h
        | some l0 =>
          rw [hr] at h
          cases h
          intro j hj
          rcases List.mem_cons.mp hj with rfl | hj2
          · exact e2
          · exact ih _ _ hr j hj2
      · rw [if_neg e2] at h; cases h

theorem freeWalk_min (L : List Nat) (c : Nat) :
    ∀ f i l, freeWalk L c i f = some l →
      freeWalk L c i (l.length + 1) = some l := by
  intro f
  induction f with
  | zero => intro i l h; cases h
  | succ g ih =>
    intro i l h
    rw [freeWalk_succ] at h
    by_cases e : i = c
    · rw [if_pos e] at h
      cases h
      rw [freeWalk_succ, if_pos e]
    · rw [if_neg e] at h
      by_cases e2 : i < c
      · rw [if_pos e2] at h
        cases hr : freeWalk L c (L.getD i 0) g with
        | none => rw [hr] at h; cases h
        | some l0 =>
          rw [hr] at h
          cases h
          have h2 := ih _ _ hr
          simp only [List.length_cons]
          rw [freeWalk_succ, if_neg e, if_pos e2, h2]
          rfl
      · rw [if_neg e2] at h; cases h

theorem freeWalk_split (L : List Nat) (c : Nat) :
    ∀ f i l1 j l2, freeWalk L c i f = some (l1 ++ j :: l2) →
      ∃ m, m ≤ f ∧ freeWalk L c j m = some (j :: l2) := by
  intro f
  induction f with
  | zero => intro i l1 j l2 h; cases h
  | succ g ih =>
    intro i l1 j l2 h
    rw [freeWalk_succ] at h
    by_cases e : i = c
    · rw [if_pos e] at h
      have h2 := Option.some.inj h
      cases l1 <;> simp at h2
    · rw [if_neg e] at h
      by_cases e2 : i < c
      · rw [if_pos e2] at h
        cases hr : freeWalk L c (L.getD i 0) g with
        | none => rw [hr] at h; cases h
        | some l0 =>
          rw [hr] at h
          have h2 := Option.some.inj h
          cases l1 with
          | nil =>
            injection h2 with h3 h4
            subst h3
            refine ⟨g + 1, Nat.le_refl _, ?_⟩
            rw [freeWalk_succ, if_neg e, if_pos e2, hr]
            simp [h4]
          | cons a l1t =>
            injection h2 with h3 h4
            obtain ⟨m, hm, hw⟩ := ih (L.getD i 0) l1t j l2 (by rw [hr, h4]; rfl)
            exact ⟨m, Nat.le_succ_of_le hm, hw⟩
      · rw [if_neg e2] at h; cases h

theorem freeWalk_nodup (L : List Nat) (c : Nat) :
    ∀ f i l, freeWalk L c i f = some l → l.Nodup := by
  intro f
  induction f with
  | zero => intro i l h; cases h
  | succ g ih =>
    intro i l h
    rw [freeWalk_succ] at h
    by_cases e : i = c
    · rw [if_pos e] at h
      cases h
      exact List.nodup_nil
    · rw [if_neg e] at h
      by_cases e2 : i < c
      · rw [if_pos e2] at h
        cases hr : freeWalk L c (L.getD i 0) g with
        | none => rw [hr] at h; cases h
        | some l0 =>
          rw [hr] at h
          cases h
          refine List.nodup_cons.mpr ⟨?_, ih _ _ hr⟩
          intro hmem
          obtain ⟨p1, p2, hsplit⟩ := List.append_of_mem hmem
          obtain ⟨m, hm, hw⟩ :=
            freeWalk_split L c g (L.getD i 0) p1 i p2 (by rw [hr, hsplit])
          have hfull : freeWalk L c i (g + 1) = some (i :: l0) := by
            rw [freeWalk_succ, if_neg e, if_pos e2, hr]
            rfl
          have hdet := freeWalk_det L c i m (g + 1) (i :: p2) (i :: l0) hw hfull
          injection hdet with h3 h4
          have h5 : l0.length = p1.length + p2.length + 1 := by
            rw [hsplit]; simp [List.length_append]; omega
          rw [h4] at h5
          omega
      · rw [if_neg e2] at h; cases h

theorem freeWalk_set_not_mem (L : List Nat) (c : Nat) :
    ∀ f i l j v, freeWalk L c i f = some l → j ∉ l →
      freeWalk (L.set j v) c i f = some l := by
  intro f
  induction f with
  | zero => intro i l j v h; cases h
  | succ g ih =>
    intro i l j v h hj
    rw [freeWalk_succ] at h
    rw [freeWalk_succ]
    by_cases e : i = c
    · rw [if_pos e] at h ⊢; exact h
    · rw [if_neg e] at h ⊢
      by_cases e2 : i < c
      · rw [if_pos e2] at h ⊢
        cases hr : freeWalk L c (L.getD i 0) g with
        | none => rw [hr] at h; cases h
        | some l0 =>
          rw [hr] at h
          cases h
          have hji : j ≠ i := fun e3 => hj (e3 ▸ List.mem_cons_self i l0)
          have hj0 : j ∉ l0 := fun m => hj (List.mem_cons_of_mem i m)
          rw [getD_set_ne L j i v 0 hji, ih _ _ j v hr hj0]
          rfl
      · rw [if_neg e2] at h; cases h

theorem freshLinks_length (c : Nat) : (freshLinks c).length = c := by
  simp [freshLinks]

theorem freshLinks_getD (c k : Nat) (h : k < c) :
    (freshLinks c).getD k 0 = k + 1 := by
  simp [freshLinks, List.getD_eq_getElem?_getD, List.getElem?_map,
    List.getElem?_range, h]

theorem freeWalk_fresh_aux (c : Nat) :
    ∀ n k, k + n = c →
      freeWalk (freshLinks c) c k (n + 1) = some (List.range' k n) := by
  intro n
  induction n with
  | zero =>
    intro k hk
    rw [freeWalk_succ, if_pos (by omega)]
    rfl
  | succ m ih =>
    intro k hk
    have hkc : k < c := by omega
    rw [freeWalk_succ, if_neg (by omega), if_pos hkc, freshLinks_getD c k hkc,
      ih (k + 1) (by omega)]
    rw [List.range'_succ]
    rfl

theorem freeWalk_fresh (c : Nat) :
    freeWalk (freshLinks c) c 0 (c + 1) = some (List.range c) := by
  have h := freeWalk_fresh_aux c c 0 (by omega)
  rw [List.range_eq_range']
  exact h

theorem freeWalk_some_cases (L : List Nat) (c i f : Nat) (l : List Nat)
    (h : freeWalk L c i f = some l) :
    (i = c ∧ l = []) ∨
      (i < c ∧ ∃ l0, l = i :: l0 ∧
        freeWalk L c (L.getD i 0) (f - 1) = some l0) := by
  cases f with
  | zero => cases h
  | succ g =>
    rw [freeWalk_succ] at h
    by_cases e : i = c
    · rw [if_pos e] at h
      exact Or.inl ⟨e, (Option.some.inj h).symm⟩
    · rw [if_neg e] at h
      by_cases e2 : i < c
      · rw [if_pos e2] at h
        cases hr : freeWalk L c (L.getD i 0) g with
        | none => rw [hr] at h; cases h
        | some l0 =>
          rw [hr] at h
          exact Or.inr ⟨e2, l0, (Option.some.inj h).symm, hr⟩
      · rw [if_neg e2] at h; cases h

/-! ## Derived walk lemmas and small utilities -/

theorem head?_mem {α : Type} (l : List α) (a : α) (h : l.head? = some a) :
    a ∈ l := by
  cases l with
  | nil => cases h
  | cons b t =>
    injection h with h1
    rw [h1]
    exact List.mem_cons_self _ _

theorem freeWalk_pop (L : List Nat) (c first : Nat) (l : List Nat)
    (h : freeWalk L c first (c + 1) = some l) (hne : l ≠ []) :
    first < c ∧ l = first :: l.tail ∧
      freeWalk L c (L.getD first 0) (c + 1) = some l.tail := by
  rcases freeWalk_some_cases L c first (c + 1) l h with ⟨he, hl⟩ | ⟨hlt, l0, hl, hw⟩
  · exact absurd hl hne
  · subst hl
    refine ⟨hlt, rfl, ?_⟩
    have h2 := freeWalk_mono L c c (L.getD first 0) l0
      (by simp only [Nat.add_sub_cancel] at hw; exact hw)
    exact h2

theorem freeWalk_push (L : List Nat) (c idx first : Nat) (l : List Nat)
    (h : freeWalk L c first (c + 1) = some l) (hidx : idx < c)
    (hlen : idx < L.length) (hnm : idx ∉ l) (hll : l.length < c) :
    freeWalk (L.set idx first) c idx (c + 1) = some (idx :: l) := by
  have h1 := freeWalk_set_not_mem L c (c + 1) first l idx first h hnm
  have h2 := freeWalk_min (L.set idx first) c (c + 1) first l h1
  have h3 := freeWalk_le (L.set idx first) c first l c (l.length + 1)
    (by omega) h2
  rw [freeWalk_succ, if_neg (Nat.ne_of_lt hidx), if_pos hidx,
    getD_set_self L idx first 0 hlen, h3]
  rfl

theorem flatten_replicate_nil (n : Nat) :
    (List.replicate n ([] : List Nat)).flatten = [] := by
  induction n with
  | zero => rfl
  | succ m ih => simp [List.replicate_succ, ih]

theorem bucketGet_replicate_nil (n k : Nat) :
    bucketGet (List.replicate n ([] : List Nat)) k = [] := by
  induction n generalizing k with
  | zero => rfl
  | succ m ih =>
    cases k with
    | zero => rfl
    | succ j => simpa [List.replicate_succ] using ih j

theorem filter_eq_nil_of_all_eq (L : List Nat) (bid : Nat)
    (h : ∀ x ∈ L, x = bid) : L.filter (fun b => b ≠ bid) = [] := by
  induction L with
  | nil => rfl
  | cons a t ih =>
    have ha : a = bid := h a (List.mem_cons_self a t)
    rw [List.filter_cons, if_neg (by simp [ha])]
    exact ih (fun x hx => h x (List.mem_cons_of_mem a hx))

/-! ## Shape and case lemmas for the cursor fix-ups -/

theorem rescanMin_shape (t : SlabContext) :
    ∃ m, rescanMin t = { t with minFreeChunks := m } := by
  unfold rescanMin
  by_cases e : t.minFreeChunks = 0
  · rw [if_pos e]
    cases hf : (List.range' 1 t.chunksPerBlock).find?
        (fun k => !(bucketGet t.freelist k).isEmpty) with
    | none => exact ⟨t.minFreeChunks, rfl⟩
    | some k => exact ⟨k, rfl⟩
  · rw [if_neg e]
    exact ⟨t.minFreeChunks, rfl⟩

theorem coerceMin_shape (t : SlabContext) :
    ∃ m, coerceMin t = { t with minFreeChunks := m } := by
  unfold coerceMin
  by_cases e : t.minFreeChunks = t.chunksPerBlock
  · rw [if_pos e]; exact ⟨0, rfl⟩
  · rw [if_neg e]; exact ⟨t.minFreeChunks, rfl⟩

theorem rescanMin_cases (t : SlabContext) :
    (t.minFreeChunks ≠ 0 ∧ rescanMin t = t) ∨
    (t.minFreeChunks = 0 ∧
      (((∀ k, 1 ≤ k → k ≤ t.chunksPerBlock → bucketGet t.freelist k = []) ∧
          rescanMin t = t) ∨
        (∃ k, 1 ≤ k ∧ k ≤ t.chunksPerBlock ∧ bucketGet t.freelist k ≠ [] ∧
          rescanMin t = { t with minFreeChunks := k }))) := by
  by_cases e : t.minFreeChunks = 0
  · refine Or.inr ⟨e, ?_⟩
    cases hf : (List.range' 1 t.chunksPerBlock).find?
        (fun k => !(bucketGet t.freelist k).isEmpty) with
    | none =>
      refine Or.inl ⟨?_, by unfold rescanMin; rw [if_pos e, hf]⟩
      intro k h1 h2
      have h3 := List.find?_eq_none.mp hf k
        (by rw [List.mem_range'_1]; omega)
      simpa using h3
    | some k =>
      have hp := List.find?_some hf
      have hmm := List.mem_of_find?_eq_some hf
      rw [List.mem_range'_1] at hmm
      refine Or.inr ⟨k, by omega, by omega, ?_,
        by unfold rescanMin; rw [if_pos e, hf]⟩
      simpa using hp
  · exact Or.inl ⟨e, by unfold rescanMin; rw [if_neg e]⟩

theorem coerceMin_cases (t : SlabContext) :
    (t.minFreeChunks = t.chunksPerBlock ∧
      coerceMin t = { t with minFreeChunks := 0 }) ∨
    (t.minFreeChunks ≠ t.chunksPerBlock ∧ coerceMin t = t) := by
  by_cases e : t.minFreeChunks = t.chunksPerBlock
  · exact Or.inl ⟨e, by unfold coerceMin; rw [if_pos e]⟩
  · exact Or.inr ⟨e, by unfold coerceMin; rw [if_neg e]⟩

/-! ## Elimination lemmas for the operations -/

theorem SlabAllocCore_ok_elim (s1 : SlabContext) (p : Nat × Nat)
    (s2 : SlabContext) (h : SlabAllocCore s1 = .ok p s2) :
    ∃ bid blk,
      (bucketGet s1.freelist s1.minFreeChunks).head? = some bid ∧
      lookupBlock s1.blocks bid = some blk ∧
      blk.firstFreeChunk < s1.chunksPerBlock ∧
      p = (bid, blk.firstFreeChunk) ∧
      s2 = (allocFinish s1 bid blk).2 := by
  unfold SlabAllocCore at h
  split at h
  next hh => cases h
  next bid hh =>
    split at h
    next hl => cases h
    next blk hl =>
      split at h
      next e =>
        injection h with h1 h2
        exact ⟨bid, blk, hh, hl, e, h1.symm, h2.symm⟩
      next e => cases h

theorem SlabAlloc_ok_elim (s : SlabContext) (sz : Nat) (cm : Bool)
    (p : Nat × Nat) (s2 : SlabContext) (h : SlabAlloc s sz cm = .ok p s2) :
    sz = s.chunkSize ∧
      SlabAllocCore (if s.minFreeChunks = 0 then addNewBlock s else s) =
        .ok p s2 ∧
      (s.minFreeChunks = 0 → cm = true) := by
  unfold SlabAlloc at h
  by_cases hsz : sz = s.chunkSize
  · rw [if_neg (fun hne => hne hsz)] at h
    by_cases hnull : s.minFreeChunks = 0 ∧ cm = false
    · rw [if_pos hnull] at h; cases h
    · rw [if_neg hnull] at h
      refine ⟨hsz, h, ?_⟩
      intro hmin
      cases cm with
      | false => exact absurd ⟨hmin, rfl⟩ hnull
      | true => rfl
  · rw [if_pos hsz] at h; cases h

theorem SlabFree_some_elim (s : SlabContext) (p : Nat × Nat)
    (s3 : SlabContext) (h : SlabFree s p = some s3) :
    ∃ blk, lookupBlock s.blocks p.1 = some blk ∧
      blk.hdrBlock.getD p.2 none = some p.1 ∧ s3 = SlabFreeBody s p blk := by
  unfold SlabFree at h
  split at h
  next hl => cases h
  next blk hl =>
    split at h
    next hh => cases h
    next bid1 hh =>
      split at h
      next e =>
        exact ⟨blk, hl, by rw [hh, e], (Option.some.inj h).symm⟩
      next e => cases h

theorem isLive_elim (s : SlabContext) (p : Nat × Nat) (h : IsLive s p) :
    ∃ blk, lookupBlock s.blocks p.1 = some blk ∧
      p.2 < s.chunksPerBlock ∧ p.2 ∉ freeIdxs s.chunksPerBlock blk := by
  unfold IsLive isLiveB at h
  split at h
  next hl => cases h
  next blk hl =>
    simp only [Bool.and_eq_true, decide_eq_true_eq, Bool.not_eq_true'] at h
    refine ⟨blk, hl, h.1, ?_⟩
    intro hmem
    have h2 := h.2
    rw [List.contains_eq_any_beq] at h2
    simp [List.any_eq_true] at h2
    exact h2 p.2 hmem rfl

/-! ## Establishing the mid-allocation facts on each path -/

theorem allocMid_old (s : SlabContext) (bid : Nat) (blk : SlabBlock)
    (hI : SlabInv s) (h0 : s.minFreeChunks ≠ 0)
    (hh : (bucketGet s.freelist s.minFreeChunks).head? = some bid)
    (hl : lookupBlock s.blocks bid = some blk) : AllocMid s bid blk := by
  have hmem : bid ∈ bucketGet s.freelist s.minFreeChunks := head?_mem _ _ hh
  obtain ⟨blk2, hl2, hn2⟩ := hI.bucketNfree _ _ hmem
  rw [hl] at hl2
  have hblk2 : blk2 = blk := (Option.some.inj hl2).symm
  subst hblk2
  refine ⟨hI.flLen, hI.cPBpos, hI.bidsNodup, hI.keysPerm, hI.bidsLt,
    hI.bucketNfree, hI.blockWF, hI.slabPtr, hI.liveHdr, hI.nblocksEq,
    hI.memEq, hI.fullEq, hh, hl, hn2, by omega, Nat.le_of_lt hI.minLt,
    fun b2 bk2 _ hlk => hI.notFull b2 bk2 hlk, ?_⟩
  intro b2 hb2
  exfalso
  obtain ⟨bk2, hlk2, hnk2⟩ := hI.bucketNfree _ _ hb2
  exact absurd hnk2 (Nat.ne_of_lt (hI.notFull _ _ hlk2))

theorem allocMid_new (s : SlabContext) (hI : SlabInv s)
    (_h0 : s.minFreeChunks = 0) :
    AllocMid (addNewBlock s) s.nextBlockId (newBlock s) := by
  have hc := hI.cPBpos
  have hlen := hI.flLen
  have hclen : s.chunksPerBlock < s.freelist.length := by omega
  have hbc : bucketGet s.freelist s.chunksPerBlock = [] := by
    rcases hcase : bucketGet s.freelist s.chunksPerBlock with _ | ⟨b2, t⟩
    · rfl
    · exfalso
      have hb2 : b2 ∈ bucketGet s.freelist s.chunksPerBlock := by
        rw [hcase]; exact List.mem_cons_self _ _
      obtain ⟨bk2, hlk2, hnk2⟩ := hI.bucketNfree _ _ hb2
      exact absurd hnk2 (Nat.ne_of_lt (hI.notFull _ _ hlk2))
  have hperm : List.Perm (addNewBlock s).freelist.flatten
      (s.nextBlockId :: s.freelist.flatten) :=
    flatten_pushBucket_perm s.freelist s.chunksPerBlock s.nextBlockId hclen
  have hnb_not : s.nextBlockId ∉ s.freelist.flatten := by
    intro hm
    exact absurd (hI.bidsLt _ hm) (by omega)
  have hbucket_top : bucketGet (addNewBlock s).freelist s.chunksPerBlock
      = [s.nextBlockId] := by
    show bucketGet (pushBucket s.freelist s.chunksPerBlock s.nextBlockId)
      s.chunksPerBlock = [s.nextBlockId]
    rw [bucketGet_pushBucket_self s.freelist s.chunksPerBlock s.nextBlockId
      hclen, hbc]
  have hlook_new : lookupBlock (addNewBlock s).blocks s.nextBlockId
      = some (newBlock s) := lookupBlock_cons_self _ _ _
  have hlook_old : ∀ b2, b2 ≠ s.nextBlockId →
      lookupBlock (addNewBlock s).blocks b2 = lookupBlock s.blocks b2 := by
    intro b2 hne
    exact lookupBlock_cons_ne _ _ _ _ (fun e => hne e.symm)
  refine
    { flLen := ?_, cPBpos := hc, bidsNodup := ?_, keysPerm := ?_,
      bidsLt := ?_, bucketNfree := ?_, blockWF := ?_, slabPtr := ?_,
      liveHdr := ?_, nblocksEq := ?_, memEq := ?_, fullEq := hI.fullEq,
      headEq := ?_, lookupEq := hlook_new, nfreeEq := rfl, minPos := hc,
      minLe := Nat.le_refl _, othersNotFull := ?_, topOnly := ?_ }
  · show (pushBucket s.freelist s.chunksPerBlock s.nextBlockId).length
      = s.chunksPerBlock + 1
    simp only [pushBucket, List.length_set]
    exact hlen
  · exact (hperm.nodup_iff).mpr (List.nodup_cons.mpr ⟨hnb_not, hI.bidsNodup⟩)
  · show List.Perm (((s.nextBlockId, newBlock s) :: s.blocks).map Prod.fst)
      (addNewBlock s).freelist.flatten
    simp only [List.map_cons]
    exact (hI.keysPerm.cons s.nextBlockId).trans hperm.symm
  · intro b2 hm
    rcases List.mem_cons.mp ((hperm.mem_iff).mp hm) with he | hm2
    · show b2 < s.nextBlockId + 1
      omega
    · have := hI.bidsLt b2 hm2
      show b2 < s.nextBlockId + 1
      omega
  · intro k b2 hb2
    by_cases hk : k = s.chunksPerBlock
    · subst hk
      rw [hbucket_top] at hb2
      have hb2e : b2 = s.nextBlockId := List.mem_singleton.mp hb2
      subst hb2e
      exact ⟨newBlock s, hlook_new, rfl⟩
    · have hbk : bucketGet (addNewBlock s).freelist k = bucketGet s.freelist k :=
        bucketGet_pushBucket_ne s.freelist s.chunksPerBlock k s.nextBlockId
          (fun e => hk e.symm)
      rw [hbk] at hb2
      obtain ⟨bk2, hlk2, hnk2⟩ := hI.bucketNfree _ _ hb2
      have hb2ne : b2 ≠ s.nextBlockId := by
        have := hI.bidsLt b2 (mem_flatten_of_mem_bucket _ _ _ hb2)
        omega
      exact ⟨bk2, by rw [hlook_old b2 hb2ne]; exact hlk2, hnk2⟩
  · intro b2 bk2 hlk
    by_cases e : b2 = s.nextBlockId
    · subst e
      rw [hlook_new] at hlk
      have hbk : bk2 = newBlock s := (Option.some.inj hlk).symm
      subst hbk
      refine ⟨freshLinks_length _, List.length_replicate _ _, List.range
        s.chunksPerBlock, freeWalk_fresh s.chunksPerBlock, ?_⟩
      simp [newBlock]
    · rw [hlook_old b2 e] at hlk
      exact hI.blockWF b2 bk2 hlk
  · intro b2 bk2 hlk
    by_cases e : b2 = s.nextBlockId
    · subst e
      rw [hlook_new] at hlk
      have hbk : bk2 = newBlock s := (Option.some.inj hlk).symm
      subst hbk
      rfl
    · rw [hlook_old b2 e] at hlk
      exact hI.slabPtr b2 bk2 hlk
  · intro b2 bk2 hlk j hj hnm
    by_cases e : b2 = s.nextBlockId
    · subst e
      rw [hlook_new] at hlk
      have hbk : bk2 = newBlock s := (Option.some.inj hlk).symm
      subst hbk
      exfalso
      apply hnm
      show j ∈ freeIdxs (addNewBlock s).chunksPerBlock (newBlock s)
      unfold freeIdxs
      have : freeWalk (newBlock s).links (addNewBlock s).chunksPerBlock
          (newBlock s).firstFreeChunk ((addNewBlock s).chunksPerBlock + 1)
          = some (List.range s.chunksPerBlock) :=
        freeWalk_fresh s.chunksPerBlock
      rw [this]
      exact List.mem_range.mpr hj
    · rw [hlook_old b2 e] at hlk
      exact hI.liveHdr b2 bk2 hlk j hj hnm
  · show s.nblocks + 1 = (addNewBlock s).freelist.flatten.length
    rw [hperm.length_eq, List.length_cons, hI.nblocksEq]
  · show s.memAllocated + s.blockSize = (s.nblocks + 1) * s.blockSize
    rw [hI.memEq, Nat.succ_mul]
  · show (bucketGet (addNewBlock s).freelist s.chunksPerBlock).head?
      = some s.nextBlockId
    rw [hbucket_top]
    rfl
  · intro b2 bk2 hne hlk
    rw [hlook_old b2 hne] at hlk
    exact hI.notFull b2 bk2 hlk
  · intro b2 hb2
    have hb3 : b2 ∈ bucketGet (addNewBlock s).freelist s.chunksPerBlock := hb2
    rw [hbucket_top] at hb3
    exact List.mem_singleton.mp hb3

/-! ## The rebucketing step shared by allocation and free -/

theorem invNoMin_min_set (s : SlabContext) (m : Nat) (h : InvNoMin s) :
    InvNoMin { s with minFreeChunks := m } :=
  ⟨h.flLen, h.cPBpos, h.bidsNodup, h.keysPerm, h.bidsLt, h.bucketNfree,
    h.blockWF, h.notFull, h.slabPtr, h.liveHdr, h.nblocksEq, h.memEq, h.fullEq⟩

theorem slabInv_of_invNoMin (s : SlabContext) (h : InvNoMin s)
    (h1 : s.minFreeChunks < s.chunksPerBlock)
    (h2 : s.minFreeChunks = 0 ∨ bucketGet s.freelist s.minFreeChunks ≠ []) :
    SlabInv s :=
  ⟨h.flLen, h.cPBpos, h.bidsNodup, h.keysPerm, h.bidsLt, h.bucketNfree,
    h.blockWF, h.notFull, h.slabPtr, h.liveHdr, h1, h2, h.nblocksEq,
    h.memEq, h.fullEq⟩

theorem invNoMin_rebucket (t s1 : SlabContext) (bid : Nat) (blk1 : SlabBlock)
    (hC : t.chunksPerBlock = s1.chunksPerBlock)
    (hBl : t.blocks = updateBlock s1.blocks bid blk1)
    (hFl : t.freelist = pushBucket (deleteBid s1.freelist bid) blk1.nfree bid)
    (hNb : t.nblocks = s1.nblocks)
    (hMem : t.memAllocated = s1.memAllocated)
    (hBs : t.blockSize = s1.blockSize)
    (hCs : t.chunkSize = s1.chunkSize)
    (hFull : t.fullChunkSize = s1.fullChunkSize)
    (hCtx : t.ctxId = s1.ctxId)
    (hNext : t.nextBlockId = s1.nextBlockId)
    (flLen : s1.freelist.length = s1.chunksPerBlock + 1)
    (cPBpos : 0 < s1.chunksPerBlock)
    (bidsNodup : s1.freelist.flatten.Nodup)
    (keysPerm : List.Perm (s1.blocks.map Prod.fst) s1.freelist.flatten)
    (bidsLt : ∀ b2 ∈ s1.freelist.flatten, b2 < s1.nextBlockId)
    (bucketNfree : ∀ k b2, b2 ∈ bucketGet s1.freelist k →
      ∃ blk2, lookupBlock s1.blocks b2 = some blk2 ∧ blk2.nfree = k)
    (blockWFo : ∀ b2 blk2, b2 ≠ bid → lookupBlock s1.blocks b2 = some blk2 →
      blk2.links.length = s1.chunksPerBlock ∧
      blk2.hdrBlock.length = s1.chunksPerBlock ∧
      ∃ l2, freeWalk blk2.links s1.chunksPerBlock blk2.firstFreeChunk
          (s1.chunksPerBlock + 1) = some l2 ∧ l2.length = blk2.nfree)
    (notFullo : ∀ b2 blk2, b2 ≠ bid → lookupBlock s1.blocks b2 = some blk2 →
      blk2.nfree < s1.chunksPerBlock)
    (slabPtro : ∀ b2 blk2, b2 ≠ bid → lookupBlock s1.blocks b2 = some blk2 →
      blk2.slab = s1.ctxId)
    (liveHdro : ∀ b2 blk2, b2 ≠ bid → lookupBlock s1.blocks b2 = some blk2 →
      ∀ j, j < s1.chunksPerBlock → j ∉ freeIdxs s1.chunksPerBlock blk2 →
        blk2.hdrBlock.getD j none = some b2)
    (nblocksEq : s1.nblocks = s1.freelist.flatten.length)
    (memEq : s1.memAllocated = s1.nblocks * s1.blockSize)
    (fullEq : s1.fullChunkSize = chunkHdrSize + maxAlign s1.chunkSize)
    (hmem : bid ∈ s1.freelist.flatten)
    (hlook : ∃ blk0, lookupBlock s1.blocks bid = some blk0)
    (hn1lt : blk1.nfree < s1.chunksPerBlock)
    (hblk1WF : blk1.links.length = s1.chunksPerBlock ∧
      blk1.hdrBlock.length = s1.chunksPerBlock ∧
      ∃ l1, freeWalk blk1.links s1.chunksPerBlock blk1.firstFreeChunk
          (s1.chunksPerBlock + 1) = some l1 ∧ l1.length = blk1.nfree)
    (hblk1slab : blk1.slab = s1.ctxId)
    (hblk1hdr : ∀ j, j < s1.chunksPerBlock →
      j ∉ freeIdxs s1.chunksPerBlock blk1 →
        blk1.hdrBlock.getD j none = some bid) :
    InvNoMin t := by
  obtain ⟨blk0, hblk0⟩ := hlook
  have hdel_len : (deleteBid s1.freelist bid).length = s1.chunksPerBlock + 1 := by
    simp only [deleteBid, List.length_map]
    exact flLen
  have hn1len : blk1.nfree < (deleteBid s1.freelist bid).length := by omega
  have hperm2 : List.Perm t.freelist.flatten
      (bid :: (deleteBid s1.freelist bid).flatten) := by
    rw [hFl]
    exact flatten_pushBucket_perm _ _ _ hn1len
  have hpermO : List.Perm s1.freelist.flatten
      (bid :: (deleteBid s1.freelist bid).flatten) := by
    rw [flatten_deleteBid]
    exact perm_cons_filter_ne _ _ bidsNodup hmem
  have hpermT : List.Perm t.freelist.flatten s1.freelist.flatten :=
    hperm2.trans hpermO.symm
  have hlookT_bid : lookupBlock t.blocks bid = some blk1 := by
    rw [hBl]
    exact lookupBlock_updateBlock_self _ _ _ _ hblk0
  have hlookT_ne : ∀ b2, b2 ≠ bid →
      lookupBlock t.blocks b2 = lookupBlock s1.blocks b2 := by
    intro b2 hne
    rw [hBl]
    exact lookupBlock_updateBlock_ne _ _ _ _ hne
  have hbucketT_push : bucketGet t.freelist blk1.nfree =
      bid :: (bucketGet s1.freelist blk1.nfree).filter (fun b => b ≠ bid) := by
    rw [hFl, bucketGet_pushBucket_self _ _ _ hn1len, bucketGet_deleteBid]
  have hbucketT_ne : ∀ k, k ≠ blk1.nfree → bucketGet t.freelist k =
      (bucketGet s1.freelist k).filter (fun b => b ≠ bid) := by
    intro k hk
    rw [hFl, bucketGet_pushBucket_ne _ _ _ _ (fun e => hk e.symm),
      bucketGet_deleteBid]
  refine ⟨?_, ?_, ?_, ?_, ?_, ?_, ?_, ?_, ?_, ?_, ?_, ?_, ?_⟩
  · rw [hFl, hC]
    simp only [pushBucket, List.length_set]
    exact hdel_len
  · rw [hC]; exact cPBpos
  · exact (hpermT.nodup_iff).mpr bidsNodup
  · rw [hBl, map_fst_updateBlock]
    exact keysPerm.trans hpermT.symm
  · intro b2 hb2
    rw [hNext]
    exact bidsLt b2 ((hpermT.mem_iff).mp hb2)
  · intro k b2 hb2
    by_cases hk : k = blk1.nfree
    · subst hk
      rw [hbucketT_push] at hb2
      rcases List.mem_cons.mp hb2 with he | hmm2
      · subst he
        exact ⟨blk1, hlookT_bid, rfl⟩
      · have hb2m := List.mem_of_mem_filter hmm2
        have hb2ne : b2 ≠ bid := by
          have h2 := (List.mem_filter.mp hmm2).2
          simpa using h2
        obtain ⟨blk2, hl2, hn2⟩ := bucketNfree _ _ hb2m
        exact ⟨blk2, by rw [hlookT_ne b2 hb2ne]; exact hl2, hn2⟩
    · rw [hbucketT_ne k hk] at hb2
      have hb2m := List.mem_of_mem_filter hb2
      have hb2ne : b2 ≠ bid := by
        have h2 := (List.mem_filter.mp hb2).2
        simpa using h2
      obtain ⟨blk2, hl2, hn2⟩ := bucketNfree _ _ hb2m
      exact ⟨blk2, by rw [hlookT_ne b2 hb2ne]; exact hl2, hn2⟩
  · intro b2 blk2 hlk
    rw [hC]
    by_cases e : b2 = bid
    · subst e
      rw [hlookT_bid] at hlk
      have hbk : blk2 = blk1 := (Option.some.inj hlk).symm
      subst hbk
      exact hblk1WF
    · rw [hlookT_ne b2 e] at hlk
      exact blockWFo b2 blk2 e hlk
  · intro b2 blk2 hlk
    rw [hC]
    by_cases e : b2 = bid
    · subst e
      rw [hlookT_bid] at hlk
      have hbk : blk2 = blk1 := (Option.some.inj hlk).symm
      subst hbk
      exact hn1lt
    · rw [hlookT_ne b2 e] at hlk
      exact notFullo b2 blk2 e hlk
  · intro b2 blk2 hlk
    rw [hCtx]
    by_cases e : b2 = bid
    · subst e
      rw [hlookT_bid] at hlk
      have hbk : blk2 = blk1 := (Option.some.inj hlk).symm
      subst hbk
      exact hblk1slab
    · rw [hlookT_ne b2 e] at hlk
      exact slabPtro b2 blk2 e hlk
  · intro b2 blk2 hlk
    rw [hC]
    by_cases e : b2 = bid
    · subst e
      rw [hlookT_bid] at hlk
      have hbk : blk2 = blk1 := (Option.some.inj hlk).symm
      subst hbk
      exact hblk1hdr
    · rw [hlookT_ne b2 e] at hlk
      exact liveHdro b2 blk2 e hlk
  · rw [hNb, hpermT.length_eq]
    exact nblocksEq
  · rw [hMem, hNb, hBs]
    exact memEq
  · rw [hFull, hCs]
    exact fullEq

theorem slabInv_minfix (s2 : SlabContext) (hcore : InvNoMin s2)
    (hlt : s2.minFreeChunks < s2.chunksPerBlock)
    (hbk : s2.minFreeChunks = 0 ∨ bucketGet s2.freelist s2.minFreeChunks ≠ [])
    (htop : bucketGet s2.freelist s2.chunksPerBlock = []) :
    SlabInv (coerceMin (rescanMin s2)) := by
  rcases rescanMin_cases s2 with ⟨hne, heq⟩ | ⟨h0, hcase⟩
  · rw [heq]
    rcases coerceMin_cases s2 with ⟨he, _⟩ | ⟨_, heq2⟩
    · exact absurd he (Nat.ne_of_lt hlt)
    · rw [heq2]
      exact slabInv_of_invNoMin s2 hcore hlt hbk
  · rcases hcase with ⟨_, heq⟩ | ⟨k, hk1, hk2, hkb, heq⟩
    · rw [heq]
      rcases coerceMin_cases s2 with ⟨he, _⟩ | ⟨_, heq2⟩
      · rw [h0] at he
        exact absurd he.symm (Nat.ne_of_gt hcore.cPBpos)
      · rw [heq2]
        exact slabInv_of_invNoMin s2 hcore hlt (Or.inl h0)
    · rw [heq]
      have hkc : k ≠ s2.chunksPerBlock := by
        intro e
        rw [e] at hkb
        exact hkb htop
      rcases coerceMin_cases { s2 with minFreeChunks := k } with ⟨he, _⟩ | ⟨_, heq2⟩
      · exact absurd he hkc
      · rw [heq2]
        refine slabInv_of_invNoMin _ (invNoMin_min_set s2 k hcore) ?_ ?_
        · show k < s2.chunksPerBlock
          omega
        · exact Or.inr hkb

theorem allocFinish_inv (s1 : SlabContext) (bid : Nat) (blk : SlabBlock)
    (hm : AllocMid s1 bid blk) : SlabInv (allocFinish s1 bid blk).2 := by
  obtain ⟨hLlen, hHlen, l, hwalk, hlen⟩ := hm.blockWF bid blk hm.lookupEq
  have hnfmin := hm.nfreeEq
  have hminpos := hm.minPos
  have hminle := hm.minLe
  have hcpos := hm.cPBpos
  have hlne : l ≠ [] := by
    intro e
    rw [e] at hlen
    simp at hlen
    omega
  obtain ⟨hidxlt, hcons, hwtail⟩ :=
    freeWalk_pop blk.links s1.chunksPerBlock blk.firstFreeChunk l hwalk hlne
  have hnodup := freeWalk_nodup _ _ _ _ _ hwalk
  have htail_len : l.tail.length = blk.nfree - 1 := by
    rw [hcons] at hlen
    simp only [List.length_cons] at hlen
    omega
  have hidx_not_tail : blk.firstFreeChunk ∉ l.tail := by
    rw [hcons] at hnodup
    exact (List.nodup_cons.mp hnodup).1
  have hmem_bid : bid ∈ bucketGet s1.freelist s1.minFreeChunks :=
    head?_mem _ _ hm.headEq
  have hflat_bid : bid ∈ s1.freelist.flatten :=
    mem_flatten_of_mem_bucket _ _ _ hmem_bid
  have hfreeIdxs_blk : freeIdxs s1.chunksPerBlock blk = l := by
    unfold freeIdxs
    rw [hwalk]
    rfl
  have hfreeIdxs_blk1 : freeIdxs s1.chunksPerBlock (allocBlk1 bid blk)
      = l.tail := by
    show (freeWalk blk.links s1.chunksPerBlock
      (blk.links.getD blk.firstFreeChunk 0) (s1.chunksPerBlock + 1)).getD []
      = l.tail
    rw [hwtail]
    rfl
  show SlabInv (coerceMin (rescanMin (allocState2 s1 bid blk)))
  apply slabInv_minfix
  · apply invNoMin_rebucket (allocState2 s1 bid blk) s1 bid (allocBlk1 bid blk)
      rfl rfl rfl rfl rfl rfl rfl rfl rfl rfl
      hm.flLen hm.cPBpos hm.bidsNodup hm.keysPerm hm.bidsLt hm.bucketNfree
      (fun b2 blk2 _ hlk => hm.blockWF b2 blk2 hlk) hm.othersNotFull
      (fun b2 blk2 _ hlk => hm.slabPtr b2 blk2 hlk)
      (fun b2 blk2 _ hlk => hm.liveHdr b2 blk2 hlk) hm.nblocksEq hm.memEq
      hm.fullEq hflat_bid ⟨blk, hm.lookupEq⟩
    · show blk.nfree - 1 < s1.chunksPerBlock
      omega
    · refine ⟨hLlen, ?_, l.tail, hwtail, htail_len⟩
      show (blk.hdrBlock.set blk.firstFreeChunk (some bid)).length
        = s1.chunksPerBlock
      rw [List.length_set]
      exact hHlen
    · exact hm.slabPtr bid blk hm.lookupEq
    · intro j hj hnm
      rw [hfreeIdxs_blk1] at hnm
      by_cases hji : j = blk.firstFreeChunk
      · subst hji
        show (blk.hdrBlock.set blk.firstFreeChunk (some bid)).getD
          blk.firstFreeChunk none = some bid
        exact getD_set_self _ _ _ _ (by rw [hHlen]; exact hidxlt)
      · have hjl : j ∉ l := by
          rw [hcons]
          intro hmem2
          rcases List.mem_cons.mp hmem2 with e | e
          · exact hji e
          · exact hnm e
        have hlive := hm.liveHdr bid blk hm.lookupEq j hj
          (by rw [hfreeIdxs_blk]; exact hjl)
        show (blk.hdrBlock.set blk.firstFreeChunk (some bid)).getD j none
          = some bid
        rw [getD_set_ne _ _ _ _ _ (fun e => hji e.symm)]
        exact hlive
  · show blk.nfree - 1 < s1.chunksPerBlock
    omega
  · refine Or.inr ?_
    show bucketGet (pushBucket (deleteBid s1.freelist bid) (blk.nfree - 1) bid)
      (blk.nfree - 1) ≠ []
    have hlen2 : blk.nfree - 1 < (deleteBid s1.freelist bid).length := by
      simp only [deleteBid, List.length_map]
      have := hm.flLen
      omega
    rw [bucketGet_pushBucket_self _ _ _ hlen2]
    exact List.cons_ne_nil _ _
  · show bucketGet (pushBucket (deleteBid s1.freelist bid) (blk.nfree - 1) bid)
      s1.chunksPerBlock = []
    have hne : blk.nfree - 1 ≠ s1.chunksPerBlock := by omega
    rw [bucketGet_pushBucket_ne _ _ _ _ hne, bucketGet_deleteBid]
    exact filter_eq_nil_of_all_eq _ _ (hm.topOnly)

theorem SlabAlloc_ok_inv (s : SlabContext) (sz : Nat) (cm : Bool)
    (p : Nat × Nat) (s2 : SlabContext) (hI : SlabInv s)
    (h : SlabAlloc s sz cm = .ok p s2) : SlabInv s2 := by
  obtain ⟨hsz, hcore, _⟩ := SlabAlloc_ok_elim s sz cm p s2 h
  by_cases h0 : s.minFreeChunks = 0
  · rw [if_pos h0] at hcore
    obtain ⟨bid, blk, hh, hl, hf, hp, hs⟩ := SlabAllocCore_ok_elim _ _ _ hcore
    have hmid := allocMid_new s hI h0
    have hbid : bid = s.nextBlockId := by
      have h2 := hmid.headEq
      rw [hh] at h2
      exact Option.some.inj h2
    subst hbid
    have hblk : blk = newBlock s := by
      have h2 := hmid.lookupEq
      rw [hl] at h2
      exact Option.some.inj h2
    subst hblk
    rw [hs]
    exact allocFinish_inv _ _ _ hmid
  · rw [if_neg h0] at hcore
    obtain ⟨bid, blk, hh, hl, hf, hp, hs⟩ := SlabAllocCore_ok_elim _ _ _ hcore
    rw [hs]
    exact allocFinish_inv _ _ _ (allocMid_old s bid blk hI h0 hh hl)

/-! ## Case analysis of the free operation -/

theorem freeState2_cases (s : SlabContext) (p : Nat × Nat) (blk : SlabBlock) :
    (s.minFreeChunks ≠ blk.nfree ∧ freeState2 s p blk = freeState1 s p blk) ∨
    (s.minFreeChunks = blk.nfree ∧
      bucketGet (freeState1 s p blk).freelist s.minFreeChunks ≠ [] ∧
      freeState2 s p blk = freeState1 s p blk) ∨
    (s.minFreeChunks = blk.nfree ∧
      bucketGet (freeState1 s p blk).freelist s.minFreeChunks = [] ∧
      blk.nfree + 1 = s.chunksPerBlock ∧
      freeState2 s p blk = { freeState1 s p blk with minFreeChunks := 0 }) ∨
    (s.minFreeChunks = blk.nfree ∧
      bucketGet (freeState1 s p blk).freelist s.minFreeChunks = [] ∧
      blk.nfree + 1 ≠ s.chunksPerBlock ∧
      freeState2 s p blk =
        { freeState1 s p blk with minFreeChunks := s.minFreeChunks + 1 }) := by
  by_cases h1 : s.minFreeChunks = blk.nfree
  · by_cases h2 : bucketGet (freeState1 s p blk).freelist s.minFreeChunks = []
    · by_cases h3 : blk.nfree + 1 = s.chunksPerBlock
      · refine Or.inr (Or.inr (Or.inl ⟨h1, h2, h3, ?_⟩))
        unfold freeState2
        rw [if_pos (show s.minFreeChunks = (freeBlk1 p blk).nfree - 1 from h1),
          if_pos h2,
          if_pos (show (freeBlk1 p blk).nfree =
            (freeState1 s p blk).chunksPerBlock from h3)]
      · refine Or.inr (Or.inr (Or.inr ⟨h1, h2, h3, ?_⟩))
        unfold freeState2
        rw [if_pos (show s.minFreeChunks = (freeBlk1 p blk).nfree - 1 from h1),
          if_pos h2,
          if_neg (show ¬ (freeBlk1 p blk).nfree =
            (freeState1 s p blk).chunksPerBlock from h3)]
    · refine Or.inr (Or.inl ⟨h1, h2, ?_⟩)
      unfold freeState2
      rw [if_pos (show s.minFreeChunks = (freeBlk1 p blk).nfree - 1 from h1),
        if_neg h2]
  · refine Or.inl ⟨h1, ?_⟩
    unfold freeState2
    rw [if_neg (show ¬ s.minFreeChunks = (freeBlk1 p blk).nfree - 1 from h1)]

theorem freeState2_cPB (s : SlabContext) (p : Nat × Nat) (blk : SlabBlock) :
    (freeState2 s p blk).chunksPerBlock = s.chunksPerBlock := by
  unfold freeState2
  split
  · split
    · split
      · rfl
      · rfl
    · rfl
  · rfl

theorem SlabFreeBody_cases (s : SlabContext) (p : Nat × Nat) (blk : SlabBlock) :
    (blk.nfree + 1 = s.chunksPerBlock ∧ SlabFreeBody s p blk =
      { freeState2 s p blk with
          blocks := removeBlock (freeState2 s p blk).blocks p.1
          nblocks := (freeState2 s p blk).nblocks - 1
          memAllocated := (freeState2 s p blk).memAllocated -
            (freeState2 s p blk).blockSize }) ∨
    (blk.nfree + 1 ≠ s.chunksPerBlock ∧ SlabFreeBody s p blk =
      { freeState2 s p blk with
          freelist := pushBucket (freeState2 s p blk).freelist
            (blk.nfree + 1) p.1 }) := by
  by_cases e : blk.nfree + 1 = s.chunksPerBlock
  · refine Or.inl ⟨e, ?_⟩
    unfold SlabFreeBody
    rw [if_pos (show (freeBlk1 p blk).nfree =
      (freeState2 s p blk).chunksPerBlock by rw [freeState2_cPB]; exact e)]
  · refine Or.inr ⟨e, ?_⟩
    unfold SlabFreeBody
    rw [if_neg (show ¬ (freeBlk1 p blk).nfree =
      (freeState2 s p blk).chunksPerBlock by rw [freeState2_cPB]; exact e)]
    rfl

theorem inv_free_reclaim (s : SlabContext) (p : Nat × Nat) (blk : SlabBlock)
    (hI : SlabInv s) (hl : lookupBlock s.blocks p.1 = some blk) (m : Nat)
    (hmlt : m < s.chunksPerBlock)
    (hmbk : m = 0 ∨ bucketGet (deleteBid s.freelist p.1) m ≠ []) :
    SlabInv { s with
        blocks := removeBlock (updateBlock s.blocks p.1 (freeBlk1 p blk)) p.1
        freelist := deleteBid s.freelist p.1
        minFreeChunks := m
        nblocks := s.nblocks - 1
        memAllocated := s.memAllocated - s.blockSize } := by
  have hkey : p.1 ∈ s.blocks.map Prod.fst := lookupBlock_mem _ _ _ hl
  have hflat : p.1 ∈ s.freelist.flatten := (hI.keysPerm.mem_iff).mp hkey
  have hflat_del : (deleteBid s.freelist p.1).flatten
      = s.freelist.flatten.filter (fun b => b ≠ p.1) := flatten_deleteBid _ _
  have hlen_del : (deleteBid s.freelist p.1).flatten.length + 1
      = s.freelist.flatten.length := by
    rw [hflat_del]
    exact length_filter_ne _ _ hI.bidsNodup hflat
  have hlookup_ne : ∀ b2, b2 ≠ p.1 →
      lookupBlock (removeBlock (updateBlock s.blocks p.1 (freeBlk1 p blk)) p.1)
        b2 = lookupBlock s.blocks b2 := by
    intro b2 hne
    rw [lookupBlock_removeBlock_ne _ _ _ hne,
      lookupBlock_updateBlock_ne _ _ _ _ hne]
  have hlookup_self : lookupBlock
      (removeBlock (updateBlock s.blocks p.1 (freeBlk1 p blk)) p.1) p.1
      = none := lookupBlock_removeBlock_self _ _
  refine ⟨?_, hI.cPBpos, ?_, ?_, ?_, ?_, ?_, ?_, ?_, ?_, hmlt, hmbk, ?_, ?_,
    hI.fullEq⟩
  · show (deleteBid s.freelist p.1).length = s.chunksPerBlock + 1
    simp only [deleteBid, List.length_map]
    exact hI.flLen
  · show ((deleteBid s.freelist p.1).flatten).Nodup
    rw [hflat_del]
    exact hI.bidsNodup.filter _
  · show List.Perm
      ((removeBlock (updateBlock s.blocks p.1 (freeBlk1 p blk)) p.1).map
        Prod.fst) (deleteBid s.freelist p.1).flatten
    rw [map_fst_removeBlock, map_fst_updateBlock, hflat_del]
    exact hI.keysPerm.filter _
  · intro b2 hb2
    rw [hflat_del] at hb2
    exact hI.bidsLt b2 (List.mem_of_mem_filter hb2)
  · intro k b2 hb2
    rw [bucketGet_deleteBid] at hb2
    have hb2m := List.mem_of_mem_filter hb2
    have hb2ne : b2 ≠ p.1 := by
      have h2 := (List.mem_filter.mp hb2).2
      simpa using h2
    obtain ⟨blk2, hl2, hn2⟩ := hI.bucketNfree _ _ hb2m
    exact ⟨blk2, by rw [hlookup_ne b2 hb2ne]; exact hl2, hn2⟩
  · intro b2 blk2 hlk
    by_cases e : b2 = p.1
    · subst e
      rw [hlookup_self] at hlk
      cases hlk
    · rw [hlookup_ne b2 e] at hlk
      exact hI.blockWF b2 blk2 hlk
  · intro b2 blk2 hlk
    by_cases e : b2 = p.1
    · subst e
      rw [hlookup_self] at hlk
      cases hlk
    · rw [hlookup_ne b2 e] at hlk
      exact hI.notFull b2 blk2 hlk
  · intro b2 blk2 hlk
    by_cases e : b2 = p.1
    · subst e
      rw [hlookup_self] at hlk
      cases hlk
    · rw [hlookup_ne b2 e] at hlk
      exact hI.slabPtr b2 blk2 hlk
  · intro b2 blk2 hlk
    by_cases e : b2 = p.1
    · subst e
      rw [hlookup_self] at hlk
      cases hlk
    · rw [hlookup_ne b2 e] at hlk
      exact hI.liveHdr b2 blk2 hlk
  · show s.nblocks - 1 = (deleteBid s.freelist p.1).flatten.length
    have h2 := hI.nblocksEq
    omega
  · show s.memAllocated - s.blockSize = (s.nblocks - 1) * s.blockSize
    rw [hI.memEq]
    have hge : 1 ≤ s.nblocks := by
      rw [hI.nblocksEq]
      have h3 : 0 < s.freelist.flatten.length :=
        List.length_pos.mpr (List.ne_nil_of_mem hflat)
      omega
    cases hnb : s.nblocks with
    | zero => omega
    | succ k => rw [Nat.succ_mul, Nat.add_sub_cancel, Nat.succ_sub_one]

theorem inv_free_push (s : SlabContext) (p : Nat × Nat) (blk : SlabBlock)
    (hI : SlabInv s) (hl : lookupBlock s.blocks p.1 = some blk)
    (hidx : p.2 < s.chunksPerBlock)
    (hnm : p.2 ∉ freeIdxs s.chunksPerBlock blk)
    (hP : blk.nfree + 1 ≠ s.chunksPerBlock) (m : Nat)
    (hmlt : m < s.chunksPerBlock)
    (hmbk : m = 0 ∨ bucketGet (pushBucket (deleteBid s.freelist p.1)
      (blk.nfree + 1) p.1) m ≠ []) :
    SlabInv { s with
        blocks := updateBlock s.blocks p.1 (freeBlk1 p blk)
        freelist := pushBucket (deleteBid s.freelist p.1) (blk.nfree + 1) p.1
        minFreeChunks := m } := by
  obtain ⟨hLlen, hHlen, l, hwalk, hlen⟩ := hI.blockWF p.1 blk hl
  have hnfull := hI.notFull p.1 blk hl
  have hfreeIdxs_blk : freeIdxs s.chunksPerBlock blk = l := by
    unfold freeIdxs
    rw [hwalk]
    rfl
  rw [hfreeIdxs_blk] at hnm
  have hll : l.length < s.chunksPerBlock := by rw [hlen]; exact hnfull
  have hwpush := freeWalk_push blk.links s.chunksPerBlock p.2
    blk.firstFreeChunk l hwalk hidx (by rw [hLlen]; exact hidx) hnm hll
  have hkey : p.1 ∈ s.blocks.map Prod.fst := lookupBlock_mem _ _ _ hl
  have hflat : p.1 ∈ s.freelist.flatten := (hI.keysPerm.mem_iff).mp hkey
  have hfreeIdxs_blk1 : freeIdxs s.chunksPerBlock (freeBlk1 p blk)
      = p.2 :: l := by
    show (freeWalk (blk.links.set p.2 blk.firstFreeChunk) s.chunksPerBlock p.2
      (s.chunksPerBlock + 1)).getD [] = p.2 :: l
    rw [hwpush]
    rfl
  apply slabInv_of_invNoMin
  · apply invNoMin_rebucket
      ({ s with
          blocks := updateBlock s.blocks p.1 (freeBlk1 p blk)
          freelist := pushBucket (deleteBid s.freelist p.1) (blk.nfree + 1) p.1
          minFreeChunks := m }) s p.1 (freeBlk1 p blk)
      rfl rfl rfl rfl rfl rfl rfl rfl rfl rfl
      hI.flLen hI.cPBpos hI.bidsNodup hI.keysPerm hI.bidsLt hI.bucketNfree
      (fun b2 blk2 _ hlk => hI.blockWF b2 blk2 hlk)
      (fun b2 blk2 _ hlk => hI.notFull b2 blk2 hlk)
      (fun b2 blk2 _ hlk => hI.slabPtr b2 blk2 hlk)
      (fun b2 blk2 _ hlk => hI.liveHdr b2 blk2 hlk)
      hI.nblocksEq hI.memEq hI.fullEq hflat ⟨blk, hl⟩
    · show blk.nfree + 1 < s.chunksPerBlock
      omega
    · refine ⟨?_, hHlen, p.2 :: l, hwpush, ?_⟩
      · show (blk.links.set p.2 blk.firstFreeChunk).length = s.chunksPerBlock
        rw [List.length_set]
        exact hLlen
      · show (p.2 :: l).length = blk.nfree + 1
        rw [List.length_cons, hlen]
    · exact hI.slabPtr p.1 blk hl
    · intro j hj hnm2
      rw [hfreeIdxs_blk1] at hnm2
      have hjl : j ∉ l := fun e => hnm2 (List.mem_cons_of_mem _ e)
      exact hI.liveHdr p.1 blk hl j hj (by rw [hfreeIdxs_blk]; exact hjl)
  · exact hmlt
  · exact hmbk

theorem SlabFreeBody_inv (s : SlabContext) (p : Nat × Nat) (blk : SlabBlock)
    (hI : SlabInv s) (hl : lookupBlock s.blocks p.1 = some blk)
    (hidx : p.2 < s.chunksPerBlock)
    (hnm : p.2 ∉ freeIdxs s.chunksPerBlock blk) :
    SlabInv (SlabFreeBody s p blk) := by
  have hnfull := hI.notFull p.1 blk hl
  have hbucket_unique : ∀ k, p.1 ∈ bucketGet s.freelist k → k = blk.nfree := by
    intro k hk
    obtain ⟨blk2, hl2, hn2⟩ := hI.bucketNfree _ _ hk
    rw [hl] at hl2
    have e := Option.some.inj hl2
    rw [← e] at hn2
    exact hn2.symm
  have hbucket_other : ∀ k, k ≠ blk.nfree →
      bucketGet (deleteBid s.freelist p.1) k = bucketGet s.freelist k := by
    intro k hk
    rw [bucketGet_deleteBid]
    apply filter_ne_self
    intro hmem
    exact hk (hbucket_unique k hmem)
  have hpushlen : blk.nfree + 1 < (deleteBid s.freelist p.1).length := by
    have h2 := hI.flLen
    simp only [deleteBid, List.length_map]
    omega
  rcases SlabFreeBody_cases s p blk with ⟨hR, hbody⟩ | ⟨hP, hbody⟩
  · rw [hbody]
    rcases freeState2_cases s p blk with ⟨h1, heq⟩ | ⟨h1, h2, heq⟩ |
      ⟨h1, h2, h3, heq⟩ | ⟨h1, h2, h3, heq⟩
    · rw [heq]
      refine inv_free_reclaim s p blk hI hl s.minFreeChunks hI.minLt ?_
      rcases hI.minBucket with hz | hb
      · exact Or.inl hz
      · refine Or.inr ?_
        rw [hbucket_other s.minFreeChunks h1]
        exact hb
    · rw [heq]
      exact inv_free_reclaim s p blk hI hl s.minFreeChunks hI.minLt
        (Or.inr h2)
    · rw [heq]
      exact inv_free_reclaim s p blk hI hl 0 hI.cPBpos (Or.inl rfl)
    · exact absurd hR h3
  · rw [hbody]
    rcases freeState2_cases s p blk with ⟨h1, heq⟩ | ⟨h1, h2, heq⟩ |
      ⟨h1, h2, h3, heq⟩ | ⟨h1, h2, h3, heq⟩
    · rw [heq]
      refine inv_free_push s p blk hI hl hidx hnm hP s.minFreeChunks
        hI.minLt ?_
      rcases hI.minBucket with hz | hb
      · exact Or.inl hz
      · refine Or.inr ?_
        by_cases he : s.minFreeChunks = blk.nfree + 1
        · rw [he, bucketGet_pushBucket_self _ _ _ hpushlen]
          exact List.cons_ne_nil _ _
        · rw [bucketGet_pushBucket_ne _ _ _ _ (fun e2 => he e2.symm),
            hbucket_other s.minFreeChunks h1]
          exact hb
    · rw [heq]
      refine inv_free_push s p blk hI hl hidx hnm hP s.minFreeChunks
        hI.minLt ?_
      refine Or.inr ?_
      have he : blk.nfree + 1 ≠ s.minFreeChunks := by omega
      rw [bucketGet_pushBucket_ne _ _ _ _ he]
      exact h2
    · exact absurd h3 hP
    · rw [heq]
      refine inv_free_push s p blk hI hl hidx hnm hP (s.minFreeChunks + 1)
        (by omega) ?_
      refine Or.inr ?_
      rw [h1, bucketGet_pushBucket_self _ _ _ hpushlen]
      exact List.cons_ne_nil _ _

theorem SlabFree_some_inv (s : SlabContext) (p : Nat × Nat)
    (s3 : SlabContext) (hI : SlabInv s) (hlive : IsLive s p)
    (h : SlabFree s p = some s3) : SlabInv s3 := by
  obtain ⟨blk, hl, hhdr, hs⟩ := SlabFree_some_elim s p s3 h
  obtain ⟨blk2, hl2, hidx, hnm⟩ := isLive_elim s p hlive
  rw [hl] at hl2
  have e := Option.some.inj hl2
  rw [← e] at hnm
  rw [hs]
  exact SlabFreeBody_inv s p blk hI hl hidx hnm

/-! ## Invariant establishment at creation, and preservation by reset -/

theorem SlabContextCreate_inv (cid bs cs : Nat) (s : SlabContext)
    (h : SlabContextCreate cid bs cs = .ok s) : SlabInv s := by
  unfold SlabContextCreate at h
  by_cases hge : bs < (chunkHdrSize + maxAlign (if cs < 4 then 4 else cs)) +
      slabBlockHdrSize
  · rw [if_pos hge] at h
    cases h
  · rw [if_neg hge] at h
    injection h with h1
    subst h1
    have hfullpos : 0 < chunkHdrSize + maxAlign (if cs < 4 then 4 else cs) := by
      unfold chunkHdrSize
      omega
    have hcpos : 0 <
        (bs - slabBlockHdrSize) /
          (chunkHdrSize + maxAlign (if cs < 4 then 4 else cs)) := by
      apply Nat.div_pos ?_ hfullpos
      have hge2 : chunkHdrSize + maxAlign (if cs < 4 then 4 else cs) +
          slabBlockHdrSize ≤ bs := Nat.le_of_not_lt hge
      omega
    refine ⟨?_, hcpos, ?_, ?_, ?_, ?_, ?_, ?_, ?_, ?_, hcpos, Or.inl rfl,
      ?_, ?_, rfl⟩
    · exact List.length_replicate _ _
    · rw [flatten_replicate_nil]
      exact List.nodup_nil
    · rw [flatten_replicate_nil]
      exact List.Perm.refl _
    · intro b2 hb2
      rw [flatten_replicate_nil] at hb2
      cases hb2
    · intro k b2 hb2
      rw [bucketGet_replicate_nil] at hb2
      cases hb2
    · intro b2 blk2 hlk
      cases hlk
    · intro b2 blk2 hlk
      cases hlk
    · intro b2 blk2 hlk
      cases hlk
    · intro b2 blk2 hlk
      cases hlk
    · rw [flatten_replicate_nil]
      rfl
    · exact (Nat.zero_mul _).symm

theorem foldl_freeOneBlock_scalar (L : List Nat) (s : SlabContext) :
    (L.foldl freeOneBlock s).ctxId = s.ctxId ∧
    (L.foldl freeOneBlock s).chunkSize = s.chunkSize ∧
    (L.foldl freeOneBlock s).fullChunkSize = s.fullChunkSize ∧
    (L.foldl freeOneBlock s).blockSize = s.blockSize ∧
    (L.foldl freeOneBlock s).chunksPerBlock = s.chunksPerBlock ∧
    (L.foldl freeOneBlock s).minFreeChunks = s.minFreeChunks ∧
    (L.foldl freeOneBlock s).nextBlockId = s.nextBlockId := by
  induction L generalizing s with
  | nil => exact ⟨rfl, rfl, rfl, rfl, rfl, rfl, rfl⟩
  | cons b L ih => exact ih (freeOneBlock s b)

theorem foldl_freeOneBlock_nblocks (L : List Nat) (s : SlabContext) :
    (L.foldl freeOneBlock s).nblocks = s.nblocks - L.length := by
  induction L generalizing s with
  | nil => rfl
  | cons b L ih =>
    show (L.foldl freeOneBlock (freeOneBlock s b)).nblocks
      = s.nblocks - (b :: L).length
    rw [ih (freeOneBlock s b)]
    show s.nblocks - 1 - L.length = s.nblocks - (b :: L).length
    simp only [List.length_cons]
    omega

theorem foldl_freeOneBlock_mem (L : List Nat) (s : SlabContext) :
    (L.foldl freeOneBlock s).memAllocated
      = s.memAllocated - L.length * s.blockSize := by
  induction L generalizing s with
  | nil => simp
  | cons b L ih =>
    show (L.foldl freeOneBlock (freeOneBlock s b)).memAllocated
      = s.memAllocated - (b :: L).length * s.blockSize
    rw [ih (freeOneBlock s b)]
    show s.memAllocated - s.blockSize - L.length * s.blockSize
      = s.memAllocated - (b :: L).length * s.blockSize
    simp only [List.length_cons, Nat.succ_mul]
    omega

theorem filter_not_mem_cons (l2 : List Nat) (b : Nat) (L : List Nat) :
    (l2.filter (fun x => x ≠ b)).filter (fun x => decide (x ∉ L))
      = l2.filter (fun x => decide (x ∉ b :: L)) := by
  induction l2 with
  | nil => rfl
  | cons a t ih =>
    by_cases h1 : a = b
    · subst h1
      simp [List.filter_cons, ih, Bool.and_comm]
    · by_cases h2 : a ∈ L
      · simp [List.filter_cons, h1, h2, ih, Bool.and_comm]
      · simp [List.filter_cons, h1, h2, ih, Bool.and_comm]

theorem filter_blocks_not_mem_cons (bs : List (Nat × SlabBlock)) (b : Nat)
    (L : List Nat) :
    (bs.filter (fun bb => bb.1 ≠ b)).filter (fun bb => decide (bb.1 ∉ L))
      = bs.filter (fun bb => decide (bb.1 ∉ b :: L)) := by
  induction bs with
  | nil => rfl
  | cons a t ih =>
    by_cases h1 : a.1 = b
    · simp [List.filter_cons, h1, ih, Bool.and_comm]
    · by_cases h2 : a.1 ∈ L
      · simp [List.filter_cons, h1, h2, ih, Bool.and_comm]
      · simp [List.filter_cons, h1, h2, ih, Bool.and_comm]

theorem foldl_freeOneBlock_freelist (L : List Nat) (s : SlabContext) :
    (L.foldl freeOneBlock s).freelist
      = s.freelist.map (fun l2 => l2.filter (fun x => decide (x ∉ L))) := by
  induction L generalizing s with
  | nil =>
    show s.freelist = _
    have h1 : ∀ l2 : List Nat,
        l2.filter (fun x => decide (x ∉ ([] : List Nat))) = l2 := by
      intro l2
      simp
    conv_lhs => rw [← List.map_id s.freelist]
    exact (List.map_congr_left (fun l2 _ => (h1 l2).symm))
  | cons b L ih =>
    show (L.foldl freeOneBlock (freeOneBlock s b)).freelist = _
    rw [ih (freeOneBlock s b)]
    show (deleteBid s.freelist b).map _ = _
    unfold deleteBid
    rw [List.map_map]
    exact List.map_congr_left (fun l2 _ => filter_not_mem_cons l2 b L)

theorem foldl_freeOneBlock_blocks (L : List Nat) (s : SlabContext) :
    (L.foldl freeOneBlock s).blocks
      = s.blocks.filter (fun bb => decide (bb.1 ∉ L)) := by
  induction L generalizing s with
  | nil =>
    show s.blocks = _
    have h1 : s.blocks.filter (fun bb => decide (bb.1 ∉ ([] : List Nat)))
        = s.blocks := by
      simp
    exact h1.symm
  | cons b L ih =>
    show (L.foldl freeOneBlock (freeOneBlock s b)).blocks = _
    rw [ih (freeOneBlock s b)]
    show (removeBlock s.blocks b).filter _ = _
    unfold removeBlock
    exact filter_blocks_not_mem_cons s.blocks b L

theorem bucketGet_map_filter (fl : List (List Nat)) (q : Nat → Bool) (k : Nat) :
    bucketGet (fl.map (fun l2 => l2.filter q)) k = (bucketGet fl k).filter q := by
  induction fl generalizing k with
  | nil => rfl
  | cons l t ih =>
    cases k with
    | zero => rfl
    | succ j => exact ih j

theorem flatten_map_filter (fl : List (List Nat)) (q : Nat → Bool) :
    (fl.map (fun l2 => l2.filter q)).flatten = fl.flatten.filter q := by
  induction fl with
  | nil => rfl
  | cons l t ih =>
    simp only [List.map_cons, List.flatten_cons, List.filter_append, ih]

theorem SlabReset_spec (s : SlabContext) (hI : SlabInv s) :
    (SlabReset s).minFreeChunks = 0 ∧
    (SlabReset s).nblocks = 0 ∧
    (SlabReset s).memAllocated = 0 ∧
    (SlabReset s).blocks = [] ∧
    (SlabReset s).freelist.flatten = [] ∧
    (∀ k, bucketGet (SlabReset s).freelist k = []) ∧
    (SlabReset s).freelist.length = s.chunksPerBlock + 1 ∧
    (SlabReset s).ctxId = s.ctxId ∧
    (SlabReset s).chunkSize = s.chunkSize ∧
    (SlabReset s).fullChunkSize = s.fullChunkSize ∧
    (SlabReset s).blockSize = s.blockSize ∧
    (SlabReset s).chunksPerBlock = s.chunksPerBlock ∧
    (SlabReset s).nextBlockId = s.nextBlockId := by
  obtain ⟨hctx, hcs, hfull, hbs, hcpb, hmin, hnext⟩ :=
    foldl_freeOneBlock_scalar s.freelist.flatten s
  have hnb := foldl_freeOneBlock_nblocks s.freelist.flatten s
  have hmem := foldl_freeOneBlock_mem s.freelist.flatten s
  have hfl := foldl_freeOneBlock_freelist s.freelist.flatten s
  have hbl := foldl_freeOneBlock_blocks s.freelist.flatten s
  refine ⟨rfl, ?_, ?_, ?_, ?_, ?_, ?_, hctx, hcs, hfull, hbs, hcpb, hnext⟩
  · show (s.freelist.flatten.foldl freeOneBlock s).nblocks = 0
    rw [hnb, hI.nblocksEq]
    omega
  · show (s.freelist.flatten.foldl freeOneBlock s).memAllocated = 0
    rw [hmem, hI.memEq, hI.nblocksEq]
    omega
  · show (s.freelist.flatten.foldl freeOneBlock s).blocks = []
    rw [hbl]
    apply List.filter_eq_nil_iff.mpr
    intro bb hbb
    have hm : bb.1 ∈ s.freelist.flatten :=
      (hI.keysPerm.mem_iff).mp (List.mem_map_of_mem Prod.fst hbb)
    simp [hm]
  · show ((s.freelist.flatten.foldl freeOneBlock s).freelist).flatten = []
    rw [hfl, flatten_map_filter]
    apply List.filter_eq_nil_iff.mpr
    intro x hx
    simp [hx]
  · intro k
    show bucketGet (s.freelist.flatten.foldl freeOneBlock s).freelist k = []
    rw [hfl, bucketGet_map_filter]
    apply List.filter_eq_nil_iff.mpr
    intro x hx
    have hm : x ∈ s.freelist.flatten := mem_flatten_of_mem_bucket _ _ _ hx
    simp [hm]
  · show (s.freelist.flatten.foldl freeOneBlock s).freelist.length
      = s.chunksPerBlock + 1
    rw [hfl, List.length_map]
    exact hI.flLen

theorem SlabReset_inv (s : SlabContext) (hI : SlabInv s) :
    SlabInv (SlabReset s) := by
  obtain ⟨hmin, hnb, hmem, hbl, hflat, hbk, hlen, hctx, hcs, hfull, hbs,
    hcpb, hnext⟩ := SlabReset_spec s hI
  refine ⟨?_, ?_, ?_, ?_, ?_, ?_, ?_, ?_, ?_, ?_, ?_, ?_, ?_, ?_, ?_⟩
  · rw [hlen, hcpb]
  · rw [hcpb]
    exact hI.cPBpos
  · rw [hflat]
    exact List.nodup_nil
  · rw [hflat, hbl]
    exact List.Perm.refl _
  · intro b2 hb2
    rw [hflat] at hb2
    cases hb2
  · intro k b2 hb2
    rw [hbk k] at hb2
    cases hb2
  · intro b2 blk2 hlk
    rw [hbl] at hlk
    cases hlk
  · intro b2 blk2 hlk
    rw [hbl] at hlk
    cases hlk
  · intro b2 blk2 hlk
    rw [hbl] at hlk
    cases hlk
  · intro b2 blk2 hlk
    rw [hbl] at hlk
    cases hlk
  · rw [hmin, hcpb]
    exact hI.cPBpos
  · exact Or.inl hmin
  · rw [hnb, hflat]
    rfl
  · rw [hmem, hnb]
    simp
  · rw [hfull, hcs]
    exact hI.fullEq

/-- Every state reachable through the public protocol satisfies the global
invariant. -/
theorem reachable_inv (s : SlabContext) (h : Reachable s) : SlabInv s := by
  induction h with
  | create cid bs cs s hc => exact SlabContextCreate_inv cid bs cs s hc
  | alloc s p s2 sz cm h hs ih => exact SlabAlloc_ok_inv s sz cm p s2 ih hs
  | free s p s2 h hl hs ih => exact SlabFree_some_inv s p s2 ih hl hs
  | reset s h ih => exact SlabReset_inv s ih

/-! ## Constructive characterizations used by the claims -/

theorem SlabAllocCore_ok_intro (s1 : SlabContext) (bid : Nat) (blk : SlabBlock)
    (hh : (bucketGet s1.freelist s1.minFreeChunks).head? = some bid)
    (hl : lookupBlock s1.blocks bid = some blk)
    (hf : blk.firstFreeChunk < s1.chunksPerBlock) :
    SlabAllocCore s1 = .ok (bid, blk.firstFreeChunk)
      (allocFinish s1 bid blk).2 := by
  unfold SlabAllocCore
  rw [hh]
  show (match lookupBlock s1.blocks bid with
    | none => AllocResult.fatal SlabError.assertionFailure s1
    | some blk =>
      if blk.firstFreeChunk < s1.chunksPerBlock then
        AllocResult.ok (allocFinish s1 bid blk).1 (allocFinish s1 bid blk).2
      else AllocResult.fatal SlabError.assertionFailure s1) = _
  rw [hl]
  show (if blk.firstFreeChunk < s1.chunksPerBlock then
      AllocResult.ok (allocFinish s1 bid blk).1 (allocFinish s1 bid blk).2
    else AllocResult.fatal SlabError.assertionFailure s1) = _
  rw [if_pos hf]
  rfl

theorem SlabAllocCore_ne_null (s1 s2 : SlabContext) :
    SlabAllocCore s1 ≠ .null s2 := by
  intro h
  unfold SlabAllocCore at h
  split at h
  · cases h
  · split at h
    · cases h
    · split at h
      · cases h
      · cases h

theorem SlabAlloc_ok_total (s : SlabContext) (hI : SlabInv s) :
    ∃ q t, SlabAlloc s s.chunkSize true = .ok q t := by
  by_cases h0 : s.minFreeChunks = 0
  · have hmid := allocMid_new s hI h0
    refine ⟨(s.nextBlockId, (newBlock s).firstFreeChunk),
      (allocFinish (addNewBlock s) s.nextBlockId (newBlock s)).2, ?_⟩
    unfold SlabAlloc
    rw [if_neg (fun hne => hne rfl), if_neg (by simp), if_pos h0]
    exact SlabAllocCore_ok_intro (addNewBlock s) s.nextBlockId (newBlock s)
      hmid.headEq hmid.lookupEq hI.cPBpos
  · rcases hI.minBucket with hz | hb
    · exact absurd hz h0
    · rcases hcase : bucketGet s.freelist s.minFreeChunks with _ | ⟨bid, rest⟩
      · exact absurd hcase hb
      · have hh : (bucketGet s.freelist s.minFreeChunks).head? = some bid := by
          rw [hcase]; rfl
        have hmem : bid ∈ bucketGet s.freelist s.minFreeChunks := by
          rw [hcase]; exact List.mem_cons_self _ _
        obtain ⟨blk, hl, hn⟩ := hI.bucketNfree _ _ hmem
        obtain ⟨hL, hH, l, hw, hlen⟩ := hI.blockWF bid blk hl
        have hlne : l ≠ [] := by
          intro e
          rw [e] at hlen
          simp at hlen
          omega
        obtain ⟨hidxlt, _, _⟩ :=
          freeWalk_pop blk.links s.chunksPerBlock blk.firstFreeChunk l hw hlne
        refine ⟨(bid, blk.firstFreeChunk), (allocFinish s bid blk).2, ?_⟩
        unfold SlabAlloc
        rw [if_neg (fun hne => hne rfl), if_neg (by simp [h0]), if_neg h0]
        exact SlabAllocCore_ok_intro s bid blk hh hl hidxlt

theorem allocFinish_scalar (s1 : SlabContext) (bid : Nat) (blk : SlabBlock) :
    (allocFinish s1 bid blk).2.chunkSize = s1.chunkSize ∧
    (allocFinish s1 bid blk).2.chunksPerBlock = s1.chunksPerBlock ∧
    (allocFinish s1 bid blk).2.nextBlockId = s1.nextBlockId := by
  obtain ⟨m1, e1⟩ := rescanMin_shape (allocState2 s1 bid blk)
  obtain ⟨m2, e2⟩ := coerceMin_shape (rescanMin (allocState2 s1 bid blk))
  refine ⟨?_, ?_, ?_⟩
  · show (coerceMin (rescanMin (allocState2 s1 bid blk))).chunkSize = _
    rw [e2, e1]
    rfl
  · show (coerceMin (rescanMin (allocState2 s1 bid blk))).chunksPerBlock = _
    rw [e2, e1]
    rfl
  · show (coerceMin (rescanMin (allocState2 s1 bid blk))).nextBlockId = _
    rw [e2, e1]
    rfl

theorem freeState2_proj (s : SlabContext) (p : Nat × Nat) (blk : SlabBlock) :
    (freeState2 s p blk).nblocks = s.nblocks ∧
    (freeState2 s p blk).memAllocated = s.memAllocated ∧
    (freeState2 s p blk).blockSize = s.blockSize ∧
    (freeState2 s p blk).blocks = updateBlock s.blocks p.1 (freeBlk1 p blk) ∧
    (freeState2 s p blk).freelist = deleteBid s.freelist p.1 ∧
    (freeState2 s p blk).nextBlockId = s.nextBlockId := by
  unfold freeState2
  split
  · split
    · split
      · exact ⟨rfl, rfl, rfl, rfl, rfl, rfl⟩
      · exact ⟨rfl, rfl, rfl, rfl, rfl, rfl⟩
    · exact ⟨rfl, rfl, rfl, rfl, rfl, rfl⟩
  · exact ⟨rfl, rfl, rfl, rfl, rfl, rfl⟩

theorem SlabFreeBody_nextBlockId (s : SlabContext) (p : Nat × Nat)
    (blk : SlabBlock) :
    (SlabFreeBody s p blk).nextBlockId = s.nextBlockId := by
  obtain ⟨_, _, _, _, _, hnext⟩ := freeState2_proj s p blk
  rcases SlabFreeBody_cases s p blk with ⟨_, hbody⟩ | ⟨_, hbody⟩
  · rw [hbody]
    exact hnext
  · rw [hbody]
    exact hnext

/-! ## Deterministic LIFO behaviour of a fresh block -/

theorem allocFinish_midRun (s1 : SlabContext) (bid k : Nat) (blk : SlabBlock)
    (c : Nat) (hc : s1.chunksPerBlock = c)
    (hflen : s1.freelist.length = c + 1)
    (hlk : lookupBlock s1.blocks bid = some blk)
    (hff : blk.firstFreeChunk = k) (hnf : blk.nfree = c - k)
    (hlinks : blk.links = freshLinks c) (hk1 : k + 1 < c) :
    MidRun c bid (k + 1) (allocFinish s1 bid blk).2 := by
  have ht2 : (allocFinish s1 bid blk).2 = allocState2 s1 bid blk := by
    show coerceMin (rescanMin (allocState2 s1 bid blk)) = _
    rcases rescanMin_cases (allocState2 s1 bid blk) with ⟨hne, heq⟩ | ⟨h0, _⟩
    · rw [heq]
      rcases coerceMin_cases (allocState2 s1 bid blk) with ⟨he, _⟩ | ⟨_, heq2⟩
      · exfalso
        have h2 : blk.nfree - 1 = s1.chunksPerBlock := he
        omega
      · rw [heq2]
    · exfalso
      have h2 : blk.nfree - 1 = 0 := h0
      omega
  rw [ht2]
  refine ⟨hc, ?_, ?_, hk1, ?_, ?_⟩
  · show (pushBucket (deleteBid s1.freelist bid) (blk.nfree - 1) bid).length
      = c + 1
    simp only [pushBucket, List.length_set, deleteBid, List.length_map]
    exact hflen
  · show blk.nfree - 1 = c - (k + 1)
    omega
  · show (bucketGet (pushBucket (deleteBid s1.freelist bid) (blk.nfree - 1)
      bid) (c - (k + 1))).head? = some bid
    have he : c - (k + 1) = blk.nfree - 1 := by omega
    rw [he, bucketGet_pushBucket_self]
    · rfl
    · simp only [deleteBid, List.length_map]
      omega
  · refine ⟨allocBlk1 bid blk, ?_, ?_, ?_, ?_⟩
    · show lookupBlock (updateBlock s1.blocks bid (allocBlk1 bid blk)) bid
        = some (allocBlk1 bid blk)
      exact lookupBlock_updateBlock_self _ _ _ _ hlk
    · show blk.links.getD blk.firstFreeChunk 0 = k + 1
      rw [hff, hlinks, freshLinks_getD c k (by omega)]
    · show blk.nfree - 1 = c - (k + 1)
      omega
    · show blk.links = freshLinks c
      exact hlinks

theorem midRun_step (c bid k : Nat) (t : SlabContext) (hm : MidRun c bid k t) :
    ∃ t2, SlabAlloc t t.chunkSize true = .ok (bid, k) t2 ∧
      t2.chunkSize = t.chunkSize ∧ t2.chunksPerBlock = c ∧
      (k + 1 < c → MidRun c bid (k + 1) t2) := by
  obtain ⟨blk, hlk, hff, hnf, hlinks⟩ := hm.lookupEq
  have hmin := hm.minEq
  have hklt := hm.klt
  have hceq := hm.cEq
  have hminne : t.minFreeChunks ≠ 0 := by omega
  have hh : (bucketGet t.freelist t.minFreeChunks).head? = some bid := by
    rw [hmin]
    exact hm.headEq
  have hflt : blk.firstFreeChunk < t.chunksPerBlock := by
    rw [hff, hceq]
    exact hklt
  have hcore := SlabAllocCore_ok_intro t bid blk hh hlk hflt
  obtain ⟨hcs2, hcpb2, _⟩ := allocFinish_scalar t bid blk
  refine ⟨(allocFinish t bid blk).2, ?_, hcs2, by rw [hcpb2, hceq], ?_⟩
  · unfold SlabAlloc
    rw [if_neg (fun hne => hne rfl), if_neg (by simp [hminne]), if_neg hminne]
    rw [hcore, hff]
  · intro hk1
    exact allocFinish_midRun t bid k blk c hceq hm.flLen hlk hff hnf hlinks hk1

theorem allocStream_fresh_run (c bid : Nat) :
    ∀ n k t, t.chunksPerBlock = c → k + n = c →
      (0 < n → MidRun c bid k t) →
      ∃ t2, allocStream t n
        = some ((List.range' k n).map (fun i => (bid, i)), t2) := by
  intro n
  induction n with
  | zero =>
    intro k t _ _ _
    exact ⟨t, rfl⟩
  | succ m ih =>
    intro k t hc hk hmr
    have hm := hmr (by omega)
    obtain ⟨t2, hstep, hcs2, hc2, hnext⟩ := midRun_step c bid k t hm
    have hunf : allocStream t (m + 1)
        = (allocStream t2 m).map (fun r => ((bid, k) :: r.1, r.2)) := by
      conv_lhs => unfold allocStream
      rw [hstep]
    obtain ⟨t3, hrun⟩ := ih (k + 1) t2 hc2 (by omega)
      (fun hpos => hnext (by omega))
    refine ⟨t3, ?_⟩
    rw [hunf, hrun, List.range'_succ]
    rfl

theorem fresh_block_run (s : SlabContext) (hI : SlabInv s)
    (h0 : s.minFreeChunks = 0) :
    ∃ t2, allocStream s s.chunksPerBlock
      = some ((List.range s.chunksPerBlock).map (fun i => (s.nextBlockId, i)),
        t2) := by
  have hc := hI.cPBpos
  have hmid := allocMid_new s hI h0
  have hcore := SlabAllocCore_ok_intro (addNewBlock s) s.nextBlockId
    (newBlock s) hmid.headEq hmid.lookupEq hI.cPBpos
  have hstep : SlabAlloc s s.chunkSize true = .ok (s.nextBlockId, 0)
      (allocFinish (addNewBlock s) s.nextBlockId (newBlock s)).2 := by
    unfold SlabAlloc
    rw [if_neg (fun hne => hne rfl), if_neg (by simp), if_pos h0]
    exact hcore
  obtain ⟨hcs2, hcpb2, _⟩ :=
    allocFinish_scalar (addNewBlock s) s.nextBlockId (newBlock s)
  have hflen1 : (addNewBlock s).freelist.length = s.chunksPerBlock + 1 := by
    show (pushBucket s.freelist s.chunksPerBlock s.nextBlockId).length = _
    simp only [pushBucket, List.length_set]
    exact hI.flLen
  have hmr : 0 < s.chunksPerBlock - 1 →
      MidRun s.chunksPerBlock s.nextBlockId 1
        (allocFinish (addNewBlock s) s.nextBlockId (newBlock s)).2 := by
    intro hpos
    exact allocFinish_midRun (addNewBlock s) s.nextBlockId 0 (newBlock s)
      s.chunksPerBlock rfl hflen1 hmid.lookupEq rfl rfl rfl (by omega)
  obtain ⟨t3, hrun⟩ := allocStream_fresh_run s.chunksPerBlock s.nextBlockId
    (s.chunksPerBlock - 1) 1
    (allocFinish (addNewBlock s) s.nextBlockId (newBlock s)).2
    (by rw [hcpb2]; rfl) (by omega) hmr
  refine ⟨t3, ?_⟩
  obtain ⟨m, hm⟩ : ∃ m, s.chunksPerBlock = m + 1 :=
    ⟨s.chunksPerBlock - 1, by omega⟩
  rw [show s.chunksPerBlock - 1 = m from by omega] at hrun
  rw [hm]
  conv_lhs => unfold allocStream
  rw [hstep]
  show Option.map (fun r => ((s.nextBlockId, 0) :: r.1, r.2))
    (allocStream (allocFinish (addNewBlock s) s.nextBlockId (newBlock s)).2 m)
    = _
  rw [hrun, List.range_eq_range', List.range'_succ]
  rfl

theorem free_sets_firstFree (s : SlabContext) (p : Nat × Nat)
    (s2 : SlabContext) (h : SlabFree s p = some s2) :
    ∀ blk2, lookupBlock s2.blocks p.1 = some blk2 →
      blk2.firstFreeChunk = p.2 := by
  obtain ⟨blk, hl, hhdr, hs⟩ := SlabFree_some_elim s p s2 h
  obtain ⟨_, _, _, hbl2, _, _⟩ := freeState2_proj s p blk
  intro blk2 hlk2
  rw [hs] at hlk2
  rcases SlabFreeBody_cases s p blk with ⟨_, hbody⟩ | ⟨_, hbody⟩
  · rw [hbody] at hlk2
    have hlk3 : lookupBlock
        (removeBlock (freeState2 s p blk).blocks p.1) p.1 = some blk2 := hlk2
    rw [lookupBlock_removeBlock_self] at hlk3
    cases hlk3
  · rw [hbody] at hlk2
    have hlk3 : lookupBlock (freeState2 s p blk).blocks p.1 = some blk2 := hlk2
    rw [hbl2, lookupBlock_updateBlock_self _ _ _ _ hl] at hlk3
    have e := Option.some.inj hlk3
    rw [← e]
    rfl

theorem alloc_after_free_returns_same (s : SlabContext) (p : Nat × Nat)
    (s2 : SlabContext) (hI : SlabInv s) (hlive : IsLive s p)
    (h : SlabFree s p = some s2) :
    ∀ sz cm q t, SlabAlloc s2 sz cm = .ok q t → q.1 = p.1 → q = p := by
  intro sz cm q t halloc hq
  obtain ⟨hsz, hcore, _⟩ := SlabAlloc_ok_elim s2 sz cm q t halloc
  obtain ⟨blk0, hl0, _, _⟩ := isLive_elim s p hlive
  have hplt : p.1 < s.nextBlockId :=
    hI.bidsLt p.1 ((hI.keysPerm.mem_iff).mp (lookupBlock_mem _ _ _ hl0))
  have hnext2 : s2.nextBlockId = s.nextBlockId := by
    obtain ⟨blk, hl, hhdr, hs⟩ := SlabFree_some_elim s p s2 h
    rw [hs]
    exact SlabFreeBody_nextBlockId s p blk
  by_cases h0 : s2.minFreeChunks = 0
  · rw [if_pos h0] at hcore
    obtain ⟨bid, blk3, hh3, hl3, hf3, hp3, _⟩ :=
      SlabAllocCore_ok_elim _ _ _ hcore
    have hbid : bid = p.1 := by rw [hp3] at hq; exact hq
    subst hbid
    have hne : ¬ s2.nextBlockId = p.1 := by omega
    have hl3b : lookupBlock ((s2.nextBlockId, newBlock s2) :: s2.blocks) p.1
        = some blk3 := hl3
    rw [lookupBlock_cons_ne s2.nextBlockId p.1 (newBlock s2) s2.blocks hne]
      at hl3b
    have hff := free_sets_firstFree s p s2 h blk3 hl3b
    rw [hp3, hff]
  · rw [if_neg h0] at hcore
    obtain ⟨bid, blk3, hh3, hl3, hf3, hp3, _⟩ :=
      SlabAllocCore_ok_elim _ _ _ hcore
    have hbid : bid = p.1 := by rw [hp3] at hq; exact hq
    subst hbid
    have hff := free_sets_firstFree s p s2 h blk3 hl3
    rw [hp3, hff]

/-! ## Concrete reachable states for the witnesses -/

theorem reach_w0 : Reachable w0 :=
  Reachable.create 0 80 16 w0 (by rfl)

theorem reach_w1 : Reachable w1 :=
  Reachable.alloc w0 (0, 0) w1 16 true reach_w0 (by rfl)

theorem reach_w2 : Reachable w2 :=
  Reachable.alloc w1 (0, 1) w2 16 true reach_w1 (by rfl)

theorem reach_w3 : Reachable w3 :=
  Reachable.alloc w2 (1, 0) w3 16 true reach_w2 (by rfl)

theorem reach_w4 : Reachable w4 :=
  Reachable.alloc w3 (1, 1) w4 16 true reach_w3 (by rfl)

theorem reach_c1s : Reachable c1s :=
  Reachable.free w4 (0, 0) c1s reach_w4 (by decide) (by rfl)

theorem reach_y3 : Reachable y3 :=
  Reachable.free w2 (0, 0) y3 reach_w2 (by decide) (by rfl)

theorem reach_y4 : Reachable y4 :=
  Reachable.free y3 (0, 1) y4 reach_y3 (by decide) (by rfl)

theorem chunkGetBlock_live (s : SlabContext) (p : Nat × Nat) (hI : SlabInv s)
    (hlive : IsLive s p) :
    ∃ blk, chunkGetBlock s p = some blk ∧
      lookupBlock s.blocks p.1 = some blk := by
  obtain ⟨blk, hl, hidx, hnm⟩ := isLive_elim s p hlive
  have hhdr := hI.liveHdr p.1 blk hl p.2 hidx hnm
  refine ⟨blk, ?_, hl⟩
  unfold chunkGetBlock
  rw [hl]
  show (match blk.hdrBlock.getD p.2 none with
    | none => none
    | some bid1 => lookupBlock s.blocks bid1) = some blk
  rw [hhdr]
  show lookupBlock s.blocks p.1 = some blk
  exact hl

/-! ## The claims -/

/-- C1: REFUTED ON THE CODE (code bug).  `c1s` is the reachable state
obtained — with `chunksPerBlock = 2` (blockSize 80, chunkSize 16) — by four
allocations (filling blocks 0 and 1, both then in bucket 0) followed by the
free of chunk `(0, 0)`.  Afterwards block 0 sits in bucket 1 with one free
chunk, yet `minFreeChunks` is still 0: `SlabFree`'s
`dlist_is_empty(&slab->freelist[minFreeChunks])` test (slab.c:496) sees the
*other* fully-allocated block in bucket 0 and keeps the stale 0, although
the claim (and slab.c:308's own comment that `minFreeChunks == 0` means no
block has a free chunk) requires `minFreeChunks = 1`, the smallest
non-zero index of a non-empty bucket. -/
theorem slab_C1_minFreeChunks_stale :
    Reachable c1s ∧ c1s.chunksPerBlock = 2 ∧ c1s.minFreeChunks = 0 ∧
    bucketGet c1s.freelist 1 = [0] ∧
    lookupBlock c1s.blocks 0
      = some ⟨1, 0, 0, [2, 2], [some 0, some 0]⟩ :=
  ⟨reach_c1s, by decide, by decide, by decide, by decide⟩

/-- C2: in every reachable state, each block owned by the slab is linked
into exactly one bucket of the free-bucket index (it occurs exactly once in
the whole index), and the index of its bucket equals the block's `nfree`
counter. -/
theorem slab_C2_bucket_consistency (s : SlabContext) (h : Reachable s)
    (bid : Nat) (hmem : bid ∈ s.blocks.map Prod.fst) :
    s.freelist.flatten.count bid = 1 ∧
    (∃! k, bid ∈ bucketGet s.freelist k) ∧
    ∀ blk, lookupBlock s.blocks bid = some blk →
      bid ∈ bucketGet s.freelist blk.nfree ∧
      ∀ k, bid ∈ bucketGet s.freelist k → k = blk.nfree := by
  have hI := reachable_inv s h
  have hflat : bid ∈ s.freelist.flatten := (hI.keysPerm.mem_iff).mp hmem
  obtain ⟨k0, hk0len, hk0⟩ := mem_bucket_of_mem_flatten _ _ hflat
  obtain ⟨blk0, hl0, hn0⟩ := hI.bucketNfree _ _ hk0
  have huniq : ∀ k, bid ∈ bucketGet s.freelist k → k = blk0.nfree := by
    intro k hk
    obtain ⟨blk2, hl2, hn2⟩ := hI.bucketNfree _ _ hk
    rw [hl0] at hl2
    rw [← Option.some.inj hl2] at hn2
    exact hn2.symm
  refine ⟨List.count_eq_one_of_mem hI.bidsNodup hflat, ?_, ?_⟩
  · exact ⟨k0, hk0, fun k hk => (huniq k hk).trans (huniq k0 hk0).symm⟩
  · intro blk hlk
    rw [hl0] at hlk
    have e := Option.some.inj hlk
    rw [← e]
    refine ⟨?_, huniq⟩
    rw [hn0]
    exact hk0

theorem slab_C2_witness :
    w1.freelist.flatten.count 0 = 1 ∧
    (∃! k, (0 : Nat) ∈ bucketGet w1.freelist k) ∧
    ∀ blk, lookupBlock w1.blocks 0 = some blk →
      (0 : Nat) ∈ bucketGet w1.freelist blk.nfree ∧
      ∀ k, (0 : Nat) ∈ bucketGet w1.freelist k → k = blk.nfree :=
  slab_C2_bucket_consistency w1 reach_w1 0 (by decide)

/-- C3: in every reachable state, walking a block's in-place free list from
`firstFreeChunk` terminates at the sentinel `chunksPerBlock` (that is what
`freeWalk ... = some l` expresses) after visiting exactly `nfree` distinct
in-range indices; and `firstFreeChunk = chunksPerBlock` iff `nfree = 0`. -/
theorem slab_C3_freelist_wellformed (s : SlabContext) (h : Reachable s)
    (bid : Nat) (blk : SlabBlock)
    (hl : lookupBlock s.blocks bid = some blk) :
    ∃ l, freeWalk blk.links s.chunksPerBlock blk.firstFreeChunk
        (s.chunksPerBlock + 1) = some l ∧
      l.length = blk.nfree ∧ l.Nodup ∧ (∀ i ∈ l, i < s.chunksPerBlock) ∧
      (blk.firstFreeChunk = s.chunksPerBlock ↔ blk.nfree = 0) := by
  have hI := reachable_inv s h
  obtain ⟨hL, hH, l, hw, hlen⟩ := hI.blockWF bid blk hl
  refine ⟨l, hw, hlen, freeWalk_nodup _ _ _ _ _ hw,
    freeWalk_mem_lt _ _ _ _ _ hw, ?_, ?_⟩
  · intro he
    rw [freeWalk_succ, if_pos he] at hw
    have hle : l = [] := (Option.some.inj hw).symm
    rw [hle] at hlen
    simpa using hlen.symm
  · intro hn
    have hl0 : l = [] := List.length_eq_zero.mp (by rw [hlen, hn])
    rcases freeWalk_some_cases _ _ _ _ _ hw with ⟨he, _⟩ | ⟨_, l0, hcons, _⟩
    · exact he
    · rw [hl0] at hcons
      cases hcons

theorem slab_C3_witness :
    ∃ l, freeWalk (SlabBlock.links ⟨1, 1, 0, [1, 2], [some 0, none]⟩)
        w1.chunksPerBlock
        (SlabBlock.firstFreeChunk ⟨1, 1, 0, [1, 2], [some 0, none]⟩)
        (w1.chunksPerBlock + 1) = some l ∧
      l.length = SlabBlock.nfree ⟨1, 1, 0, [1, 2], [some 0, none]⟩ ∧
      l.Nodup ∧ (∀ i ∈ l, i < w1.chunksPerBlock) ∧
      (SlabBlock.firstFreeChunk ⟨1, 1, 0, [1, 2], [some 0, none]⟩
          = w1.chunksPerBlock ↔
        SlabBlock.nfree ⟨1, 1, 0, [1, 2], [some 0, none]⟩ = 0) :=
  slab_C3_freelist_wellformed w1 reach_w1 0 ⟨1, 1, 0, [1, 2], [some 0, none]⟩
    (by decide)

/-- C4: in every reachable state no block has `nfree = chunksPerBlock`;
and when a free raises a block's `nfree` to `chunksPerBlock`, that same
`SlabFree` call removes the block from the context (its id no longer
resolves), decrements `nblocks` and subtracts `blockSize` from
`memAllocated`. -/
theorem slab_C4_eager_reclaim (s : SlabContext) (h : Reachable s) :
    (∀ bid blk, lookupBlock s.blocks bid = some blk →
      blk.nfree < s.chunksPerBlock) ∧
    (∀ p s2 blk, IsLive s p → lookupBlock s.blocks p.1 = some blk →
      blk.nfree + 1 = s.chunksPerBlock → SlabFree s p = some s2 →
      lookupBlock s2.blocks p.1 = none ∧ s2.nblocks + 1 = s.nblocks ∧
      s2.memAllocated + s.blockSize = s.memAllocated) := by
  have hI := reachable_inv s h
  refine ⟨hI.notFull, ?_⟩
  intro p s2 blk _hlive hl hfull hfree
  obtain ⟨blk2, hl2, hhdr, hs⟩ := SlabFree_some_elim s p s2 hfree
  rw [hl] at hl2
  have e := Option.some.inj hl2
  rw [← e] at hs
  have h1 : 1 ≤ s.nblocks := by
    rw [hI.nblocksEq]
    have hm : p.1 ∈ s.freelist.flatten :=
      (hI.keysPerm.mem_iff).mp (lookupBlock_mem _ _ _ hl)
    have h3 := List.length_pos.mpr (List.ne_nil_of_mem hm)
    omega
  have h2 : s.blockSize ≤ s.memAllocated := by
    rw [hI.memEq]
    calc s.blockSize = 1 * s.blockSize := (Nat.one_mul _).symm
    _ ≤ s.nblocks * s.blockSize := Nat.mul_le_mul_right _ h1
  rcases SlabFreeBody_cases s p blk with ⟨hR, hbody⟩ | ⟨hP, hbody⟩
  · obtain ⟨hnb2, hmem2, hbs2, _, _, _⟩ := freeState2_proj s p blk
    rw [hs, hbody]
    refine ⟨?_, ?_, ?_⟩
    · show lookupBlock (removeBlock (freeState2 s p blk).blocks p.1) p.1
        = none
      exact lookupBlock_removeBlock_self _ _
    · show (freeState2 s p blk).nblocks - 1 + 1 = s.nblocks
      rw [hnb2]
      omega
    · show (freeState2 s p blk).memAllocated - (freeState2 s p blk).blockSize
        + s.blockSize = s.memAllocated
      rw [hmem2, hbs2]
      omega
  · exact absurd hfull hP

theorem slab_C4_witness :
    (∀ bid blk, lookupBlock y3.blocks bid = some blk →
      blk.nfree < y3.chunksPerBlock) ∧
    (∀ p s2 blk, IsLive y3 p → lookupBlock y3.blocks p.1 = some blk →
      blk.nfree + 1 = y3.chunksPerBlock → SlabFree y3 p = some s2 →
      lookupBlock s2.blocks p.1 = none ∧ s2.nblocks + 1 = y3.nblocks ∧
      s2.memAllocated + y3.blockSize = y3.memAllocated) :=
  slab_C4_eager_reclaim y3 reach_y3

/-- C5: an allocation request whose size differs from the stored
`chunkSize` raises `unexpectedAllocChunkSize`; the check precedes every
mutation, so the state carried by the fatal result is exactly the input
state. -/
theorem slab_C5_wrong_size_alloc (s : SlabContext) (sz : Nat) (cm : Bool)
    (h : sz ≠ s.chunkSize) :
    SlabAlloc s sz cm = .fatal .unexpectedAllocChunkSize s := by
  unfold SlabAlloc
  rw [if_pos h]

theorem slab_C5_witness :
    SlabAlloc w0 15 true
      = .fatal .unexpectedAllocChunkSize w0 :=
  slab_C5_wrong_size_alloc w0 15 true (by decide)

/-- C6: `SlabAlloc` returns NULL exactly when the request size is right,
no block has a free chunk (`minFreeChunks = 0`) and the block-level
`malloc` fails — and then the state is returned unchanged.  This is the
only operation in the file with a non-fatal failure result: `SlabFree`,
`SlabRealloc`, `SlabReset` and the queries have no NULL-like outcome in
their result types. -/
theorem slab_C6_alloc_null (s : SlabContext) (sz : Nat) (cm : Bool)
    (s2 : SlabContext) :
    SlabAlloc s sz cm = .null s2 ↔
      s2 = s ∧ sz = s.chunkSize ∧ s.minFreeChunks = 0 ∧ cm = false := by
  constructor
  · intro h
    unfold SlabAlloc at h
    by_cases hsz : sz = s.chunkSize
    · rw [if_neg (fun hne => hne hsz)] at h
      by_cases hnull : s.minFreeChunks = 0 ∧ cm = false
      · rw [if_pos hnull] at h
        injection h with h1
        exact ⟨h1.symm, hsz, hnull.1, hnull.2⟩
      · rw [if_neg hnull] at h
        exact absurd h (SlabAllocCore_ne_null _ _)
    · rw [if_pos hsz] at h
      cases h
  · rintro ⟨rfl, hsz, hmin, hcm⟩
    unfold SlabAlloc
    rw [if_neg (fun hne => hne hsz), if_pos ⟨hmin, hcm⟩]

/-- C7: reallocating a live chunk at the stored chunk size returns the very
same pointer; any other size raises `reallocUnsupported`; in both cases the
returned context is the unmodified input context. -/
theorem slab_C7_realloc (s : SlabContext) (p : Nat × Nat) (h : Reachable s)
    (hlive : IsLive s p) :
    SlabRealloc s p s.chunkSize = some (.ok p, s) ∧
    ∀ sz, sz ≠ s.chunkSize →
      SlabRealloc s p sz = some (.fatal .reallocUnsupported, s) := by
  obtain ⟨blk, hrec, hl⟩ := chunkGetBlock_live s p (reachable_inv s h) hlive
  constructor
  · unfold SlabRealloc
    rw [hrec]
    show (if s.chunkSize = s.chunkSize then some (ReallocResult.ok p, s)
      else some (ReallocResult.fatal SlabError.reallocUnsupported, s)) = _
    rw [if_pos rfl]
  · intro sz hsz
    unfold SlabRealloc
    rw [hrec]
    show (if sz = s.chunkSize then some (ReallocResult.ok p, s)
      else some (ReallocResult.fatal SlabError.reallocUnsupported, s)) = _
    rw [if_neg hsz]

theorem slab_C7_witness :
    SlabRealloc w1 (0, 0) w1.chunkSize = some (.ok (0, 0), w1) ∧
    ∀ sz, sz ≠ w1.chunkSize →
      SlabRealloc w1 (0, 0) sz = some (.fatal .reallocUnsupported, w1) :=
  slab_C7_realloc w1 (0, 0) reach_w1 (by decide)

/-- C8: for a live chunk, `SlabGetChunkContext` recovers the owning context
through the stored chunk header and the block's `slab` back-pointer, and
`SlabGetChunkSpace` returns `fullChunkSize`, which equals
`sizeof(MemoryChunk) + MAXALIGN(chunkSize)` independent of the chunk. -/
theorem slab_C8_chunk_queries (s : SlabContext) (p : Nat × Nat)
    (h : Reachable s) (hlive : IsLive s p) :
    SlabGetChunkContext s p = some s.ctxId ∧
    SlabGetChunkSpace s p = some s.fullChunkSize ∧
    s.fullChunkSize = chunkHdrSize + maxAlign s.chunkSize := by
  have hI := reachable_inv s h
  obtain ⟨blk, hrec, hl⟩ := chunkGetBlock_live s p hI hlive
  refine ⟨?_, ?_, hI.fullEq⟩
  · unfold SlabGetChunkContext
    rw [hrec]
    show some blk.slab = some s.ctxId
    rw [hI.slabPtr p.1 blk hl]
  · unfold SlabGetChunkSpace
    rw [hrec]

theorem slab_C8_witness :
    SlabGetChunkContext w1 (0, 0) = some w1.ctxId ∧
    SlabGetChunkSpace w1 (0, 0) = some w1.fullChunkSize ∧
    w1.fullChunkSize = chunkHdrSize + maxAlign w1.chunkSize :=
  slab_C8_chunk_queries w1 (0, 0) reach_w1 (by decide)

/-- C9: after `SlabReset`, every block has been returned to the system
allocator (`blocks = []`, every bucket empty), `minFreeChunks`, `nblocks`
and `memAllocated` are all zero (so `SlabIsEmpty` holds), and the context
header survives with its geometry intact and can serve further
allocations. -/
theorem slab_C9_reset (s : SlabContext) (h : Reachable s) :
    (SlabReset s).minFreeChunks = 0 ∧ (SlabReset s).nblocks = 0 ∧
    (SlabReset s).memAllocated = 0 ∧ (SlabReset s).blocks = [] ∧
    (∀ k, bucketGet (SlabReset s).freelist k = []) ∧
    SlabIsEmpty (SlabReset s) = true ∧
    (SlabReset s).ctxId = s.ctxId ∧ (SlabReset s).chunkSize = s.chunkSize ∧
    (SlabReset s).fullChunkSize = s.fullChunkSize ∧
    (SlabReset s).blockSize = s.blockSize ∧
    (SlabReset s).chunksPerBlock = s.chunksPerBlock ∧
    (∃ q t, SlabAlloc (SlabReset s) s.chunkSize true = .ok q t) := by
  have hI := reachable_inv s h
  obtain ⟨hmin, hnb, hmem, hbl, hflat, hbk, hlen, hctx, hcs, hfull, hbs,
    hcpb, hnext⟩ := SlabReset_spec s hI
  refine ⟨hmin, hnb, hmem, hbl, hbk, ?_, hctx, hcs, hfull, hbs, hcpb, ?_⟩
  · simp [SlabIsEmpty, hnb]
  · rw [← hcs]
    exact SlabAlloc_ok_total (SlabReset s) (SlabReset_inv s hI)

theorem slab_C9_witness :
    (SlabReset w1).minFreeChunks = 0 ∧ (SlabReset w1).nblocks = 0 ∧
    (SlabReset w1).memAllocated = 0 ∧ (SlabReset w1).blocks = [] ∧
    (∀ k, bucketGet (SlabReset w1).freelist k = []) ∧
    SlabIsEmpty (SlabReset w1) = true ∧
    (SlabReset w1).ctxId = w1.ctxId ∧
    (SlabReset w1).chunkSize = w1.chunkSize ∧
    (SlabReset w1).fullChunkSize = w1.fullChunkSize ∧
    (SlabReset w1).blockSize = w1.blockSize ∧
    (SlabReset w1).chunksPerBlock = w1.chunksPerBlock ∧
    (∃ q t, SlabAlloc (SlabReset w1) w1.chunkSize true = .ok q t) :=
  slab_C9_reset w1 reach_w1

/-- C10: starting from any reachable state with no free chunk, a fresh
block hands out its chunk indices in order `0, 1, ..., chunksPerBlock - 1`
under consecutive allocations; and immediately after `SlabFree p`, the
owning block's `firstFreeChunk` equals `p`'s index, so the next allocation
that draws from that block returns exactly `p`. -/
theorem slab_C10_lifo (s : SlabContext) (h : Reachable s) :
    (s.minFreeChunks = 0 → ∃ t2, allocStream s s.chunksPerBlock =
      some ((List.range s.chunksPerBlock).map (fun i => (s.nextBlockId, i)),
        t2)) ∧
    (∀ p s2, IsLive s p → SlabFree s p = some s2 →
      (∀ blk2, lookupBlock s2.blocks p.1 = some blk2 →
        blk2.firstFreeChunk = p.2) ∧
      (∀ sz cm q t, SlabAlloc s2 sz cm = .ok q t → q.1 = p.1 → q = p)) := by
  have hI := reachable_inv s h
  refine ⟨fun h0 => fresh_block_run s hI h0, ?_⟩
  intro p s2 hlive hfree
  exact ⟨free_sets_firstFree s p s2 hfree,
    alloc_after_free_returns_same s p s2 hI hlive hfree⟩

theorem slab_C10_witness :
    (w0.minFreeChunks = 0 → ∃ t2, allocStream w0 w0.chunksPerBlock =
      some ((List.range w0.chunksPerBlock).map (fun i => (w0.nextBlockId, i)),
        t2)) ∧
    (∀ p s2, IsLive w0 p → SlabFree w0 p = some s2 →
      (∀ blk2, lookupBlock s2.blocks p.1 = some blk2 →
        blk2.firstFreeChunk = p.2) ∧
      (∀ sz cm q t, SlabAlloc s2 sz cm = .ok q t → q.1 = p.1 → q = p)) :=
  slab_C10_lifo w0 reach_w0
